import Mathlib

/-!
Verification of the citygraph layout-synthesis engine against its
natural-language specification.

The definitions below are shallow embeddings of the Go source:

* `pointsBetween` and the `bresLoop…` helpers embed
  `internal/line/bresenham.go` and `internal/line/util.go`;
* `classifyPoint`, `segLoop` and `lineSegments` embed
  `Citygraph.lineSegments` from `citygraph.go`;
* `deletionMethod` embeds `cell.Circut` / `deletionMethod`;
* `siteFor` embeds `Voronoi.SiteFor`;
* `towerFits`, `tryPlaceTower`, `fillWithTowers` embed the tower-placement
  closures of `Citygraph.wallDistricts`;
* `promoteFortified` embeds the fortified-district promotion step of
  `Citygraph.addWalls`;
* the `MapState` operations embed the `imageMap` methods;
* `chooseDistrictType`, `minFill`, `randomFillLoop` and `repairLoop` embed
  the district-type assignment of `randomDistricts` and the dock-repair
  pass of `verifyDistrictLocations`.

Machine integers are modelled as `Int`/`Nat`; every definition is
executable so theorems on concrete inputs evaluate by `decide`/`rfl`.
Where the Go source compares `float64` square roots of integer squared
distances we model the comparison on exact integer squared distances
(`distSq`) or on the floored integer root (`Nat.sqrt`): `math.Sqrt` is
monotone and exact on the inputs exercised here, and `int(math.Sqrt x)`
is the floored root for the small magnitudes a city map uses.
-/

/-- An integer grid point (Go `image.Point`). -/
structure Pt where
  x : Int
  y : Int
deriving DecidableEq, Repr

instance : Inhabited Pt := ⟨⟨0, 0⟩⟩

/-- An integer rectangle (Go `image.Rectangle`). -/
structure RectT where
  min : Pt
  max : Pt
deriving DecidableEq, Repr

instance : Inhabited RectT := ⟨⟨⟨0, 0⟩, ⟨0, 0⟩⟩⟩

/-- Squared Euclidean distance; `calculateDist` in the source is
`math.Sqrt` of this quantity. -/
def distSq (a b : Pt) : Int :=
  (a.x - b.x) ^ 2 + (a.y - b.y) ^ 2

/-- Downward search for the floored square root of `n`, starting at the
candidate `b` (structurally recursive so that concrete instances reduce
in the kernel; shown equal to `Nat.sqrt` below). -/
def isqrtDown (n : Nat) : Nat → Nat
  | 0 => 0
  | k + 1 => if (k + 1) * (k + 1) ≤ n then k + 1 else isqrtDown n k

/-- The floored square root. -/
def isqrt (n : Nat) : Nat :=
  isqrtDown n n

/-- `int(calculateDist a b)`: the floored Euclidean distance. -/
def distFloor (a b : Pt) : Nat :=
  isqrt (distSq a b).toNat

/-- The consecutive integers `lo, lo+1, …, lo+n-1` (a Go `for` loop range). -/
def rectRange (lo : Int) (n : Nat) : List Int :=
  (List.range n).map (fun i => lo + (i : Int))

/-! ### Segment rasterizer (`internal/line/bresenham.go`)

Each `bresLoop…` function mirrors one `case` of the Go `bresenham`
switch; the counter `n` is the Go loop counter (`dx` or `dy`), which the
Go code decrements to zero. -/

/-- Horizontal case: `n+1` points stepping `x` by one. -/
def bresLoopH (x y : Int) : Nat → List Pt
  | 0 => [⟨x, y⟩]
  | n + 1 => ⟨x, y⟩ :: bresLoopH (x + 1) y n

/-- Vertical case: `n+1` points stepping `y` by one (the Go code first
swaps so that it always steps upward). -/
def bresLoopV (x y : Int) : Nat → List Pt
  | 0 => [⟨x, y⟩]
  | n + 1 => ⟨x, y⟩ :: bresLoopV x (y + 1) n

/-- Diagonal case: `n+1` points stepping both coordinates. -/
def bresLoopDiag (x y ystep : Int) : Nat → List Pt
  | 0 => [⟨x, y⟩]
  | n + 1 => ⟨x, y⟩ :: bresLoopDiag (x + 1) (y + ystep) ystep n

/-- Wider-than-high case: plot, advance `x`, update the error term `e`
by `dy2 = 2*dy`, stepping `y` when `e` dips below zero (then adding back
`slope = 2*dx`).  The final endpoint is appended by the caller. -/
def bresLoopWide (x y ystep dy2 e slope : Int) : Nat → List Pt
  | 0 => []
  | n + 1 =>
    let e2 := e - dy2
    if e2 < 0 then ⟨x, y⟩ :: bresLoopWide (x + 1) (y + ystep) ystep dy2 (e2 + slope) slope n
    else ⟨x, y⟩ :: bresLoopWide (x + 1) y ystep dy2 e2 slope n

/-- Higher-than-wide case, symmetric to `bresLoopWide`. -/
def bresLoopTall (x y ystep dx2 e slope : Int) : Nat → List Pt
  | 0 => []
  | n + 1 =>
    let e2 := e - dx2
    if e2 < 0 then ⟨x, y⟩ :: bresLoopTall (x + 1) (y + ystep) ystep dx2 (e2 + slope) slope n
    else ⟨x, y⟩ :: bresLoopTall x (y + ystep) ystep dx2 e2 slope n

/-- `line.PointsBetween`: all grid points of the Bresenham line from `a`
to `b`, in drawing order.  The Go code first sorts the endpoints so that
`x1 ≤ x2`. -/
def pointsBetween (a b : Pt) : List Pt :=
  let s := if b.x < a.x then b else a
  let t := if b.x < a.x then a else b
  let dx := t.x - s.x
  let dy0 := t.y - s.y
  let dy := if dy0 < 0 then -dy0 else dy0
  if s.x = t.x ∧ s.y = t.y then [⟨s.x, s.y⟩]
  else if s.y = t.y then bresLoopH s.x s.y dx.toNat
  else if s.x = t.x then bresLoopV s.x (if t.y < s.y then t.y else s.y) dy.toNat
  else if dx = dy then bresLoopDiag s.x s.y (if s.y < t.y then 1 else -1) dx.toNat
  else if dy < dx then
    bresLoopWide s.x s.y (if s.y < t.y then 1 else -1) (2 * dy) dx (2 * dx) dx.toNat ++ [⟨t.x, t.y⟩]
  else
    bresLoopTall s.x s.y (if s.y < t.y then 1 else -1) (2 * dx) dy (2 * dy) dy.toNat ++ [⟨t.x, t.y⟩]

/-! ### Line classifier (`Citygraph.lineSegments`) -/

/-- The per-point classification enum of `lineSegments`
(`enumNothing` / `enumRoad` / `enumBridge` / `enumWall`). -/
inductive Cls
  | nothing
  | road
  | bridge
  | wall
deriving DecidableEq, Repr, Inhabited

/-- Everything `lineSegments` consults about one point: the optional
containing site, the spatial map (building ids and the scratch-image
fortification test) and the terrain outline.  `siteGiven` is whether a
`site` argument was passed (`site != nil`). -/
structure ClassifyEnv where
  siteGiven : Bool
  siteContains : Pt → Bool
  buildingID : Pt → Int
  isFortification : Pt → Bool
  canBuildOn : Pt → Bool
  canBridgeOver : Pt → Bool

/-- The per-point classification of `lineSegments` (the `me :=` chain in
the source).  `buildingID` is read from the map for every point, exactly
as in the source (out of bounds it yields the sentinel `-1`, which is
nonzero and therefore classifies as nothing). -/
def classifyPoint (env : ClassifyEnv) (p : Pt) : Cls :=
  if env.siteGiven ∧ ¬ env.siteContains p then Cls.nothing
  else if env.buildingID p ≠ 0 then Cls.nothing
  else if env.isFortification p then Cls.wall
  else if env.canBuildOn p then Cls.road
  else if env.canBridgeOver p then Cls.bridge
  else Cls.nothing

/-- The spec's priority order, written from §4.4 of the specification:
outside the given cell ⇒ nothing; building ⇒ nothing; existing
fortification ⇒ wall; buildable ⇒ road; bridgeable ⇒ bridge; else
nothing.  Used only to compare against `classifyPoint`. -/
def classifyPointSpec (env : ClassifyEnv) (p : Pt) : Cls :=
  if env.siteGiven ∧ ¬ env.siteContains p then Cls.nothing
  else if env.buildingID p ≠ 0 then Cls.nothing
  else if env.isFortification p then Cls.wall
  else if env.canBuildOn p then Cls.road
  else if env.canBridgeOver p then Cls.bridge
  else Cls.nothing

/-- The three result lists of `lineSegments`: `roads`, `bridges`,
`walls`. -/
structure SegResult where
  roads : List (Pt × Pt)
  bridges : List (Pt × Pt)
  walls : List (Pt × Pt)
deriving DecidableEq, Repr

/-- The mid-loop emission of a finished run `(a, b)` of class `c` in
`lineSegments`: a bridge run is appended only when `len(roads) > 0`
("we won't start a road with a bridge"). -/
def emitRun (acc : SegResult) (c : Cls) (a b : Pt) : SegResult :=
  match c with
  | Cls.bridge =>
    if 0 < acc.roads.length then { acc with bridges := acc.bridges ++ [(a, b)] } else acc
  | Cls.road => { acc with roads := acc.roads ++ [(a, b)] }
  | Cls.wall => { acc with walls := acc.walls ++ [(a, b)] }
  | Cls.nothing => acc

/-- The post-loop emission of the final run in `lineSegments` (no
`len(roads)` check on bridges there). -/
def emitFinal (acc : SegResult) (c : Cls) (a b : Pt) : SegResult :=
  match c with
  | Cls.bridge => { acc with bridges := acc.bridges ++ [(a, b)] }
  | Cls.road => { acc with roads := acc.roads ++ [(a, b)] }
  | Cls.wall => { acc with walls := acc.walls ++ [(a, b)] }
  | Cls.nothing => acc

/-- The scanning loop of `lineSegments`.  `runStart` is
`path[prevIndex]`, `runCls` is `prevEnum`, `prev` is the previously
visited point and `runLen` the length of the current run, so that the
Go post-loop guard `prevIndex != len(path)-1` is `runLen ≠ 1`. -/
def segLoop (acc : SegResult) (runStart : Pt) (runCls : Cls) (prev : Pt) (runLen : Nat) :
    List (Pt × Cls) → SegResult
  | [] => if runLen = 1 then acc else emitFinal acc runCls runStart prev
  | (p, c) :: rest =>
    if c = runCls then segLoop acc runStart runCls p (runLen + 1) rest
    else segLoop (emitRun acc runCls runStart prev) p c p 1 rest

/-- `lineSegments` driven by an arbitrary per-point classifier. -/
def lineSegmentsWith (cls : Pt → Cls) (s e : Pt) : SegResult :=
  match (pointsBetween s e).map (fun p => (p, cls p)) with
  | [] => ⟨[], [], []⟩
  | (p, c) :: rest => segLoop ⟨[], [], []⟩ p c p 1 rest

/-- `Citygraph.lineSegments`: rasterize, classify every point, and split
into road / bridge / wall sub-segments. -/
def lineSegments (env : ClassifyEnv) (s e : Pt) : SegResult :=
  lineSegmentsWith (classifyPoint env) s e

/-! ### Run decomposition (reference model for `lineSegments`)

`runs` splits a classified path into its maximal runs of equal
classification; `emitAll` re-expresses the emissions of `segLoop` run by
run.  These definitions follow the wording of the specification ("scan
left to right, merging consecutive equal classifications into one run")
and are compared with `lineSegments` in the theorems below. -/

/-- Helper of `runs`: `cur` is the (nonempty, in order) current run of
class `c`. -/
def runsAux (key : α → Cls) (cur : List α) (c : Cls) : List α → List (List α × Cls)
  | [] => [(cur, c)]
  | a :: rest =>
    if key a = c then runsAux key (cur ++ [a]) c rest
    else (cur, c) :: runsAux key [a] (key a) rest

/-- Maximal runs of equal `key` value, left to right. -/
def runs (key : α → Cls) : List α → List (List α × Cls)
  | [] => []
  | a :: rest => runsAux key [a] (key a) rest

/-- The endpoints (first point, last point) of a run. -/
def runEnds (run : List (Pt × Cls)) : Pt × Pt :=
  (run.headI.1, run.getLastI.1)

/-- Emission per run: a run that is followed by another run goes through
the mid-loop emission `emitRun`; the final run is emitted through
`emitFinal` unless it consists of a single point. -/
def emitAll (acc : SegResult) : List (List (Pt × Cls) × Cls) → SegResult
  | [] => acc
  | [(run, c)] =>
    if run.length = 1 then acc else emitFinal acc c (runEnds run).1 (runEnds run).2
  | (run, c) :: r2 :: rest =>
    emitAll (emitRun acc c (runEnds run).1 (runEnds run).2) (r2 :: rest)

/-- Which bridge runs are emitted, written out declaratively:
a bridge run followed by another run is emitted exactly when a road run
occurred before it (`roadSeen`); the final run, when a bridge, is
emitted exactly when it has at least two points — regardless of
`roadSeen`. -/
def specBridgesAux (roadSeen : Bool) : List (List (Pt × Cls) × Cls) → List (Pt × Pt)
  | [] => []
  | [(run, c)] => if c = Cls.bridge ∧ run.length ≠ 1 then [runEnds run] else []
  | (run, c) :: r2 :: rest =>
    (if c = Cls.bridge ∧ roadSeen = true then [runEnds run] else []) ++
      specBridgesAux (roadSeen || decide (c = Cls.road)) (r2 :: rest)

/-! ### Boundary extractor (`cell.Circut` / `deletionMethod`,
`internal/cell`) -/

/-- The canonical form behind `toEdgeID`: swap the endpoints when
`b.X < a.X`, or when `a.X == b.X && b.Y < a.Y`.  Two edges get the same
id string exactly when they have the same canonical form. -/
def canonEdge (e : Pt × Pt) : Pt × Pt :=
  if e.2.x < e.1.x then (e.2, e.1)
  else if e.1.x = e.2.x ∧ e.2.y < e.1.y then (e.2, e.1)
  else e

/-- A cell as the boundary extractor sees it: the `Edges()` of a
voronoi site. -/
structure CellT where
  edges : List (Pt × Pt)
deriving DecidableEq, Repr

/-- `onBorder` of `deletionMethod`: within one unit of the map frame. -/
def onBorder (bnds : RectT) (p : Pt) : Bool :=
  p.x ≤ bnds.min.x + 1 || p.x ≥ bnds.max.x - 1 || p.y ≤ bnds.min.y + 1 || p.y ≥ bnds.max.y - 1

/-- `vertOwnedOutside`: every endpoint of every edge of an outside cell. -/
def outsideVerts (outside : List CellT) : List Pt :=
  outside.flatMap (fun s => s.edges.flatMap (fun e => [e.1, e.2]))

/-- `edgeOwnedOutside`: the canonical ids of every edge of an outside
cell. -/
def outsideEdges (outside : List CellT) : List (Pt × Pt) :=
  outside.flatMap (fun s => s.edges.map canonEdge)

/-- The `neighbours` adjacency: every edge of every inside cell
contributes a link in both directions. -/
def insideLinks (inside : List CellT) : List (Pt × Pt) :=
  inside.flatMap (fun s => s.edges.flatMap (fun e => [(e.1, e.2), (e.2, e.1)]))

/-- The keep condition of the deletion loop for a link `(v, n)`:
either both endpoints are outside-cell vertices and the edge itself is
an outside-cell edge, or both endpoints lie on the map border. -/
def keepLink (bnds : RectT) (outside : List CellT) (l : Pt × Pt) : Bool :=
  (decide (l.1 ∈ outsideVerts outside) && decide (l.2 ∈ outsideVerts outside) &&
    decide (canonEdge l ∈ outsideEdges outside)) ||
  (onBorder bnds l.1 && onBorder bnds l.2)

/-- The two-sided invalidation
`neighbours[n][v] = false; neighbours[v][n] = false`. -/
def killPair (valid : Pt × Pt → Bool) (m : Pt × Pt) : Pt × Pt → Bool :=
  fun l => if l = m ∨ l = (m.2, m.1) then false else valid l

/-- The deletion loop: each still-valid link that fails the keep
condition is invalidated in both directions.  The Go source iterates the
`neighbours` map in an unspecified order; the loop's outcome is
order-independent (proved below), and we fix the link-list order. -/
def delLoop (keep : Pt × Pt → Bool) : List (Pt × Pt) → (Pt × Pt → Bool) → (Pt × Pt → Bool)
  | [], valid => valid
  | m :: rest, valid =>
    if valid m then
      if keep m then delLoop keep rest valid
      else delLoop keep rest (killPair valid m)
    else delLoop keep rest valid

/-- `deletionMethod` (and so `Circut`): build the bidirectional link
set of the inside cells, run the deletion loop, and return the links
still valid. -/
def deletionMethod (bnds : RectT) (inside outside : List CellT) : List (Pt × Pt) :=
  let links := (insideLinks inside).dedup
  let valid := delLoop (keepLink bnds outside) links (fun _ => true)
  links.filter (fun l => valid l)

/-! ### Nearest-site query (`Voronoi.SiteFor`) -/

/-- The scanning loop of `SiteFor`.  `dist` is the best distance seen so
far (squared here; `-1` is the Go sentinel for "none yet"), `pick` the
best site so far, paired with its index.  Note the source checks
`dist == 0` — the distance of the *previous* best — and then returns the
*current* site. -/
def siteForLoop (p : Pt) : List (Nat × Pt) → Int → Option (Nat × Pt) → Option (Nat × Pt)
  | [], _, pick => pick
  | (i, s) :: rest, dist, pick =>
    let sdist := distSq s p
    if dist = 0 then some (i, s)
    else if dist < 0 ∨ sdist < dist then siteForLoop p rest sdist (some (i, s))
    else siteForLoop p rest dist pick

/-- `Voronoi.SiteFor`: linear scan for the nearest site. -/
def siteFor (sites : List Pt) (p : Pt) : Option (Nat × Pt) :=
  siteForLoop p sites.enum (-1) none

/-! ### Tower placement (`Citygraph.wallDistricts` closures)

`drawTower` / `drawWall` only paint the scratch drawing context, which
none of the predicates below read (`IsTower` / `IsGatehouse` read the
committed bitmap, still all-zero at this stage of a build), so the map
is represented by the `blocked` oracle and the terrain outline. -/

/-- The terrain outline capability (`interface.go`). -/
structure OutlineM where
  canBuildOn : Pt → Bool
  canBridgeOver : Pt → Bool
  suitableDock : Pt → Bool

/-- The fortification settings `fillWithTowers` consults. -/
structure TowerCfg where
  tw : Nat
  th : Nat
  mdbt : Nat

/-- The tower rectangle centred at `(px, py)`
(`image.Rect(px-tw/2, py-th/2, px+tw/2, py+th/2)`). -/
def towerArea (cfg : TowerCfg) (px py : Int) : RectT :=
  ⟨⟨px - (cfg.tw / 2 : Nat), py - (cfg.th / 2 : Nat)⟩,
   ⟨px + (cfg.tw / 2 : Nat), py + (cfg.th / 2 : Nat)⟩⟩

/-- `Citygraph.towerFits`: every unit of the tower rectangle must be
unblocked (no tower/gatehouse already) and buildable or bridgeable. -/
def towerFits (cfg : TowerCfg) (o : OutlineM) (blocked : Pt → Bool) (px py : Int) :
    RectT × Bool :=
  let area := towerArea cfg px py
  (area,
    (rectRange area.min.x (area.max.x - area.min.x).toNat).all fun x =>
      (rectRange area.min.y (area.max.y - area.min.y).toNat).all fun y =>
        !blocked ⟨x, y⟩ && (o.canBuildOn ⟨x, y⟩ || o.canBridgeOver ⟨x, y⟩))

/-- The centre of a tower rectangle as the Go source computes it:
`((Max.X+Min.X)/2, (Max.Y+Min.Y)/2)` with Go (truncating) division. -/
def rectCentre (r : RectT) : Pt :=
  ⟨Int.tdiv (r.max.x + r.min.x) 2, Int.tdiv (r.max.y + r.min.y) 2⟩

/-- The `tryPlaceTower` closure: skip when the tower does not fit, or
when (`m > 0` and) some already placed tower centre is closer than `m`
to the candidate centre; otherwise append the tower. -/
def tryPlaceTower (cfg : TowerCfg) (o : OutlineM) (blocked : Pt → Bool)
    (allTowers towers : List RectT) (p : Pt) (m : Nat) : List RectT :=
  let fit := towerFits cfg o blocked p.x p.y
  if !fit.2 then towers
  else if 0 < m && (allTowers ++ towers).any (fun t => distFloor (rectCentre t) p < m) then towers
  else towers ++ [fit.1]

/-- The interior loop of `fillWithTowers`:
`for i := mdbt; i < len(pnts); i += mdbt`.  `fuel` dominates the number
of iterations (`pnts.length` suffices when `mdbt ≥ 1`; the Go loop does
not terminate when `mdbt = 0`). -/
def fillLoop (cfg : TowerCfg) (o : OutlineM) (blocked : Pt → Bool) (allTowers : List RectT)
    (pnts : List Pt) : Nat → Nat → List RectT → List RectT
  | 0, _, towers => towers
  | fuel + 1, i, towers =>
    if h : i < pnts.length then
      fillLoop cfg o blocked allTowers pnts fuel (i + cfg.mdbt)
        (tryPlaceTower cfg o blocked allTowers towers (pnts.get ⟨i, h⟩) cfg.mdbt)
    else towers

/-- The `fillWithTowers` closure: try both endpoints at half spacing,
then every `mdbt`-th rasterized point at full spacing.  `towers0` is the
wall-call-wide `towers` accumulator the closure captures. -/
def fillWithTowers (cfg : TowerCfg) (o : OutlineM) (blocked : Pt → Bool)
    (allTowers towers0 : List RectT) (a b : Pt) : List RectT :=
  let t1 := tryPlaceTower cfg o blocked allTowers towers0 a (cfg.mdbt / 2)
  let t2 := tryPlaceTower cfg o blocked allTowers t1 b (cfg.mdbt / 2)
  let pnts := pointsBetween a b
  fillLoop cfg o blocked allTowers pnts pnts.length cfg.mdbt t2

/-! ### Fortified-district promotion (`Citygraph.addWalls`) -/

/-- A district as the fortification and district-type logic sees it. -/
structure DistrictRec where
  id : Nat
  typ : String
  site : Pt
  dockSuitable : Nat
  hasFort : Bool
  hasCurtain : Bool
deriving DecidableEq, Repr

/-- `sortDistrictsByDistance`: sort by distance of the district site to
`p`.  The source sorts with `sort.Slice` on `calculateDist` (float);
insertion sort on the exact squared distances realises one admissible
outcome of that unstable sort. -/
def sortDistrictsByDistance (p : Pt) (ds : List DistrictRec) : List DistrictRec :=
  List.insertionSort (fun a b => distSq a.site p ≤ distSq b.site p) ds

/-- Mark a district fortified (`d.HasFortifications = true`). -/
def setFortified (d : DistrictRec) : DistrictRec :=
  { d with hasFort := true }

/-- The promotion step of `addWalls`: when fewer than
`MinFortifiedSites` districts are naturally inside, promote more.  If
even all outside districts are too few, append them all (without
setting the flag — the source's "kind of silly" branch); otherwise sort
the outside districts by distance to the centre and promote the nearest
`needed`.  Returns the updated (inside, outside) pair. -/
def promoteFortified (centre : Pt) (minFort : Int)
    (inside outside : List DistrictRec) : List DistrictRec × List DistrictRec :=
  let needed := minFort - (inside.length : Int)
  if 0 < needed then
    if (outside.length : Int) ≤ needed then (inside ++ outside, outside)
    else
      let sorted := sortDistrictsByDistance centre outside
      (inside ++ (sorted.take needed.toNat).map setFortified, sorted.drop needed.toNat)
  else (inside, outside)

/-! ### The spatial map (`imageMap`, `citymap.go`)

The backing `image.RGBA64` is a function from points to four 16-bit
channels; `a`'s high byte holds the district type id and its low byte
the structural-flag bitmap.  The scratch drawing context is a second
image whose `At().RGBA()` values (16-bit, alpha-premultiplied) are read
by `isFortification`, `nearbyFortifications` and `endDraw`. -/

/-- One RGBA64 pixel (each channel a 16-bit value). -/
structure RGBA64 where
  r : Nat
  g : Nat
  b : Nat
  a : Nat
deriving DecidableEq, Repr

/-- The spatial map: bounds, the committed image and the scratch
drawing surface. -/
structure MapState where
  bnds : RectT
  im : Pt → RGBA64
  scratch : Pt → RGBA64

/-- Bit numbers of the structural-flag bitmap. -/
def bitRoad : Nat := 0

/-- Bit number of the bridge flag. -/
def bitBridge : Nat := 1

/-- Bit number of the wall flag. -/
def bitWall : Nat := 2

/-- Bit number of the tower flag. -/
def bitTower : Nat := 3

/-- Bit number of the gatehouse flag. -/
def bitGate : Nat := 4

/-- `isOutOfBounds`: note the source compares with `>` against `Max`,
not `>=`. -/
def isOutOfBounds (m : MapState) (x y : Int) : Bool :=
  x < m.bnds.min.x || x > m.bnds.max.x || y < m.bnds.min.y || y > m.bnds.max.y

/-- `getBM`: the low byte of the alpha channel
(`_, bmdata := encoding.Split16(current.A)`). -/
def getBM (m : MapState) (p : Pt) : Nat :=
  (m.im p).a % 256

/-- `IsRoad`. -/
def isRoadM (m : MapState) (x y : Int) : Bool :=
  if isOutOfBounds m x y then false else Nat.testBit (getBM m ⟨x, y⟩) bitRoad

/-- `IsBridge`. -/
def isBridgeM (m : MapState) (x y : Int) : Bool :=
  if isOutOfBounds m x y then false else Nat.testBit (getBM m ⟨x, y⟩) bitBridge

/-- `IsWall`. -/
def isWallM (m : MapState) (x y : Int) : Bool :=
  if isOutOfBounds m x y then false else Nat.testBit (getBM m ⟨x, y⟩) bitWall

/-- `IsTower`. -/
def isTowerM (m : MapState) (x y : Int) : Bool :=
  if isOutOfBounds m x y then false else Nat.testBit (getBM m ⟨x, y⟩) bitTower

/-- `IsGatehouse`. -/
def isGatehouseM (m : MapState) (x y : Int) : Bool :=
  if isOutOfBounds m x y then false else Nat.testBit (getBM m ⟨x, y⟩) bitGate

/-- `BuildingID`: the pair is (returned id, error-free?).  Out of bounds
the source returns `-1` together with a non-nil error. -/
def buildingIDM (m : MapState) (x y : Int) : Int × Bool :=
  if isOutOfBounds m x y then (-1, false)
  else ((((m.im ⟨x, y⟩).g % 65536) * 65536 + (m.im ⟨x, y⟩).b % 65536 : Nat), true)

/-- `District`: ((district type id, district id), error-free?).  Out of
bounds the source returns `(Empty, -1)` — type id 0 — together with a
non-nil error. -/
def districtM (m : MapState) (x y : Int) : (Nat × Int) × Bool :=
  if isOutOfBounds m x y then ((0, -1), false)
  else ((((m.im ⟨x, y⟩).a % 65536) / 256, ((m.im ⟨x, y⟩).r % 65536 : Nat)), true)

/-- `nearbyFortifications`: does any scratch pixel within `radius` of
`(x, y)` have 16-bit blue at least 50 (i.e. was a wall, tower or
gatehouse drawn there)? -/
def nearbyFortifications (scratch : Pt → RGBA64) (x y radius : Int) : Bool :=
  (rectRange (y - radius) (2 * radius).toNat).any fun dy =>
    (rectRange (x - radius) (2 * radius).toNat).any fun dx =>
      50 ≤ (scratch ⟨dx, dy⟩).b % 65536

/-- One pixel of `endDraw`: the flag bitmap committed at `p`, or `none`
when the pixel is skipped (`continue`) and the committed image keeps its
previous value.  `r`, `g`, `b` are the scratch channels shifted right by
eight bits, as in the source. -/
def decodeBM (wbrw : Int) (o : OutlineM) (scratch : Pt → RGBA64) (p : Pt) : Option Nat :=
  let r := (scratch p).r % 65536 / 256
  let g := (scratch p).g % 65536 / 256
  let b := (scratch p).b % 65536 / 256
  if r = 0 ∧ g = 0 ∧ b = 0 then
    let road := o.canBuildOn p
    let water := o.canBridgeOver p
    if (road || water) && nearbyFortifications scratch p.x p.y wbrw then
      some (2 ^ (if water then bitBridge else bitRoad))
    else none
  else
    some ((if 0 < g then 2 ^ bitBridge else 0) +
      (if 150 ≤ b then 2 ^ bitGate
       else if 100 ≤ b then 2 ^ bitTower
       else if 50 ≤ b then 2 ^ bitWall else 0) +
      (if 0 < r then 2 ^ bitRoad else 0))

/-- The `setBM` write at one pixel: `Merge8(dtype, num)` keeps the high
byte (district type) and replaces the whole low byte with the bitmap. -/
def setBMPixel (v : RGBA64) (bm : Nat) : RGBA64 :=
  { v with a := (v.a % 65536) / 256 * 256 + bm % 256 }

/-- Is `p` within the half-open pixel rectangle of the drawing surface
(the loop bounds of `endDraw`)? -/
def inDrawBounds (bnds : RectT) (p : Pt) : Bool :=
  bnds.min.x ≤ p.x && p.x < bnds.max.x && bnds.min.y ≤ p.y && p.y < bnds.max.y

/-- `endDraw`: sweep every pixel of the drawing surface once, decode
the structural feature drawn there and commit it via `setBM`.  The Go
double loop touches each pixel exactly once and `nearbyFortifications`
reads only the scratch image, so the sweep is pointwise. -/
def endDraw (wbrw : Int) (o : OutlineM) (m : MapState) : MapState :=
  { m with
    im := fun p =>
      if inDrawBounds m.bnds p then
        match decodeBM wbrw o m.scratch p with
        | some bm => setBMPixel (m.im p) bm
        | none => m.im p
      else m.im p }

/-! ### District-type assignment (`randomDistricts`) and dock repair
(`verifyDistrictLocations`)

The geometric parts (site sampling, the voronoi diagram, per-pixel
statistics) are abstracted: the number of placed sites and each
district's `DockSuitable` tally are parameters.  The type-selection
logic, which the claims are about, is embedded faithfully; the Go
`rng.Float64()` draws are a stream of exact rationals, consumed one per
`chooseDistrictType` call, and the unbounded Go retry loops fail with
`none` when the stream runs out. -/

/-- The district type constant `Docks`. -/
def Docks : String := "docks"

/-- The district type constant `Empty`. -/
def EmptyT : String := "empty"

/-- `allDistricts`: the fixed enumeration, in source order. -/
def allDistricts : List String :=
  ["fortress", "civic", "residential-upperclass", "temple", "square", "market",
   "commercial", "park", "residential-middleclass", "research", "graveyard",
   "residential-lowerclass", "docks", "residential-slum", "industrial", "warehouse",
   "barracks", "prison", "fields", "abandoned", "empty"]

/-- The fields of `DistrictConfig` the type-assignment logic reads. -/
structure DCfg where
  minInCity : Nat
  maxInCity : Nat
  prob : ℚ
deriving DecidableEq, Repr

/-- The `BuilderConfig.Districts` map. -/
def Cfgs : Type := String → Option DCfg

/-- `probDistTotal`: the probabilities of every configured type summed
over `allDistricts`. -/
def probTotal (cfgs : Cfgs) : ℚ :=
  (allDistricts.filterMap cfgs).foldl (fun s dc => s + dc.prob) 0

/-- The scanning loop of `chooseDistrictType`: walk `allDistricts`,
skipping unconfigured or nonpositive-probability types, returning the
first type whose normalised cumulative probability reaches `rv`;
`Empty` when none does. -/
def chooseLoop (cfgs : Cfgs) (total rv sofar : ℚ) : List String → String
  | [] => EmptyT
  | t :: rest =>
    match cfgs t with
    | none => chooseLoop cfgs total rv sofar rest
    | some dc =>
      if dc.prob ≤ 0 then chooseLoop cfgs total rv sofar rest
      else if rv ≤ dc.prob / total + sofar then t
      else chooseLoop cfgs total rv (sofar + dc.prob / total) rest

/-- `Citygraph.chooseDistrictType` for one random draw `rv`. -/
def chooseDistrictType (cfgs : Cfgs) (total rv : ℚ) : String :=
  chooseLoop cfgs total rv 0 allDistricts

/-- The min-fill phase of `randomDistricts`: with no caller-supplied
districts every count starts at zero, so each configured type is added
`MinInCity` times, in `allDistricts` order. -/
def minFill (cfgs : Cfgs) : List String :=
  allDistricts.flatMap fun t =>
    match cfgs t with
    | none => []
    | some dc => List.replicate dc.minInCity t

/-- The random-fill loop of `randomDistricts`: keep drawing types until
`target` types are chosen, skipping types that are unconfigured or
whose count (`tempStats`, which always equals the count in `dtypes`)
has reached a positive `MaxInCity`.  `none` when the draw stream runs
out first. -/
def randomFillLoop (cfgs : Cfgs) (total : ℚ) (target : Nat) :
    List ℚ → List String → Option (List String)
  | rng, dtypes =>
    if target ≤ dtypes.length then some dtypes
    else
      match rng with
      | [] => none
      | rv :: rest =>
        let t := chooseDistrictType cfgs total rv
        match cfgs t with
        | none => randomFillLoop cfgs total target rest dtypes
        | some dc =>
          if 0 < dc.maxInCity ∧ dc.maxInCity ≤ dtypes.count t then
            randomFillLoop cfgs total target rest dtypes
          else randomFillLoop cfgs total target rest (dtypes ++ [t])

/-- The type-assignment portion of `randomDistricts` for a build with
no caller-supplied districts in which `n` random sites were accepted:
min-fill, fail (`ErrCannotMeetDesiredDistricts`) when fewer sites than
minimum types, then random-fill up to one type per site. -/
def randomDistrictTypes (cfgs : Cfgs) (rng : List ℚ) (n : Nat) : Option (List String) :=
  let dtypes := minFill cfgs
  if n < dtypes.length then none
  else randomFillLoop cfgs (probTotal cfgs) n rng dtypes

/-- Count of districts of type `t` (`CityStats.count` kept in sync with
the district list). -/
def countType (ds : List DistrictRec) (t : String) : Nat :=
  (ds.filter (fun d => d.typ = t)).length

/-- The inner retry loop of dock repair "idea #2": draw types until one
is a non-dock, configured type below its maximum.  Returns the chosen
type and the unconsumed draws. -/
def reassignPick (cfgs : Cfgs) (total : ℚ) (countOf : String → Nat) :
    List ℚ → Option (String × List ℚ)
  | [] => none
  | rv :: rest =>
    let t := chooseDistrictType cfgs total rv
    if t = Docks then reassignPick cfgs total countOf rest
    else
      match cfgs t with
      | none => reassignPick cfgs total countOf rest
      | some dc =>
        if 0 < dc.maxInCity ∧ dc.maxInCity ≤ countOf t then
          reassignPick cfgs total countOf rest
        else some (t, rest)

/-- `MinInCity` of the docks type (`minInCity := 0` when unconfigured). -/
def docksMin (cfgs : Cfgs) : Nat :=
  match cfgs Docks with
  | none => 0
  | some dc => dc.minInCity

/-- The dock-shuffling loop of `verifyDistrictLocations`.  The Go code
pops `docks` and `potentialdock` from the ends of the slices, so the
lists passed here are reversed; `done` carries every district already
settled.  Idea #1 swaps types with a potential dock; idea #2 re-types
the failing dock when a dock can be spared; otherwise the build fails. -/
def repairLoop (cfgs : Cfgs) (total : ℚ) :
    List DistrictRec → List DistrictRec → List DistrictRec → List ℚ →
    Option (List DistrictRec)
  | [], potential, done, _ => some (done ++ potential)
  | d :: docksRest, potential, done, rng =>
    match potential with
    | last :: potRest =>
      repairLoop cfgs total docksRest potRest
        (done ++ [{ d with typ := last.typ }, { last with typ := Docks }]) rng
    | [] =>
      let ds := (d :: docksRest) ++ done
      if docksMin cfgs < countType ds Docks then
        match reassignPick cfgs total (countType ds) rng with
        | none => none
        | some (t, rng2) =>
          repairLoop cfgs total docksRest [] (done ++ [{ d with typ := t }]) rng2
      else none

/-- `verifyDistrictLocations`, at the level of district types: split the
districts into failing docks, potential docks and the rest, then run the
repair loop (the per-pixel statistics are summarised by the
`dockSuitable` field). -/
def verifyDistricts (cfgs : Cfgs) (total : ℚ) (minDockSize : Nat)
    (ds : List DistrictRec) (rng : List ℚ) : Option (List DistrictRec) :=
  let docks := ds.filter fun d => d.typ = Docks ∧ d.dockSuitable < minDockSize
  let potential := ds.filter fun d => d.typ ≠ Docks ∧ minDockSize ≤ d.dockSuitable
  let others := ds.filter fun d =>
    ¬(d.typ = Docks ∧ d.dockSuitable < minDockSize) ∧
    ¬(d.typ ≠ Docks ∧ minDockSize ≤ d.dockSuitable)
  if docks.length = 0 then some ds
  else repairLoop cfgs total docks.reverse potential.reverse others rng

/-- The rasterized path from `s` to `e` tagged with each point's
classification. -/
def taggedPath (env : ClassifyEnv) (s e : Pt) : List (Pt × Cls) :=
  (pointsBetween s e).map fun p => (p, classifyPoint env p)

/-- The maximal runs of the tagged path. -/
def pathRuns (env : ClassifyEnv) (s e : Pt) : List (List (Pt × Cls) × Cls) :=
  runs Prod.snd (taggedPath env s e)

/-- How many of the wall / tower / gatehouse flags a bitmap has set. -/
def flagCount3 (bm : Nat) : Nat :=
  (if Nat.testBit bm bitWall then 1 else 0) +
  (if Nat.testBit bm bitTower then 1 else 0) +
  (if Nat.testBit bm bitGate then 1 else 0)

/-- A concrete classifier environment: the single point `x = 1` is
buildable and the single point `x = 0` is bridgeable. -/
def envCEx2 : ClassifyEnv :=
  ⟨false, fun _ => true, fun _ => 0, fun _ => false,
   fun p => decide (p.x = 1), fun p => decide (p.x = 0)⟩

/-- A concrete classifier environment: every point is bridgeable. -/
def envCEx3 : ClassifyEnv :=
  ⟨false, fun _ => true, fun _ => 0, fun _ => false, fun _ => false, fun _ => true⟩

/-- A concrete classifier environment: every point is buildable. -/
def envAllRoad : ClassifyEnv :=
  ⟨false, fun _ => true, fun _ => 0, fun _ => false, fun _ => true, fun _ => false⟩

/-- A concrete classifier environment: buildable up to `x = 1`,
bridgeable beyond. -/
def envRoadThenBridge : ClassifyEnv :=
  ⟨false, fun _ => true, fun _ => 0, fun _ => false,
   fun p => decide (p.x ≤ 1), fun p => decide (2 ≤ p.x)⟩

/-- The all-zero spatial map on a 10×10 area. -/
def mapZero : MapState :=
  ⟨⟨⟨0, 0⟩, ⟨10, 10⟩⟩, fun _ => ⟨0, 0, 0, 0⟩, fun _ => ⟨0, 0, 0, 0⟩⟩

/-- A map whose scratch surface has a tower drawn at `(1,1)`
(blue 100, i.e. 16-bit 25700). -/
def mapTowerScr : MapState :=
  ⟨⟨⟨0, 0⟩, ⟨10, 10⟩⟩, fun _ => ⟨0, 0, 0, 0⟩,
   fun p => if p = ⟨1, 1⟩ then ⟨0, 0, 25700, 65535⟩ else ⟨0, 0, 0, 0⟩⟩

/-- The outline used in concrete map evaluations: nothing buildable or
bridgeable. -/
def outlineNone : OutlineM := ⟨fun _ => false, fun _ => false, fun _ => false⟩

/-- The spacing property of one tower-placement phase: `new` extends
`old`, and every tower appended in the phase sits at floored distance at
least `m` from every tower placed before it (the `allT` accumulator of
earlier wall calls and every earlier entry of `new`). -/
def spacedExt (allT : List RectT) (m : Nat) (old new : List RectT) : Prop :=
  (∃ tl, new = old ++ tl) ∧
  ∀ (j : Nat) (h : j < new.length), old.length ≤ j →
    ∀ t ∈ allT ++ new.take j, m ≤ distFloor (rectCentre t) (rectCentre (new.get ⟨j, h⟩))

/-- A degenerate tower configuration for concrete evaluation: zero-size
towers, minimum spacing 2. -/
def cfgTW : TowerCfg := ⟨0, 0, 2⟩

/-- An outline where every point is buildable. -/
def outlineAllBuild : OutlineM := ⟨fun _ => true, fun _ => false, fun _ => false⟩

/-- A concrete naturally fortified district. -/
def insideW : List DistrictRec :=
  [⟨0, "temple", ⟨0, 1⟩, 0, true, false⟩]

/-- Concrete outside districts at distances 5, 1 and 3 from the
origin. -/
def outsideW : List DistrictRec :=
  [⟨1, "fields", ⟨5, 0⟩, 0, false, false⟩,
   ⟨2, "market", ⟨1, 0⟩, 0, false, false⟩,
   ⟨3, "civic", ⟨3, 0⟩, 0, false, false⟩]

/-- A pathological builder configuration: one type with
`MinInCity = 2 > 1 = MaxInCity`. -/
def cfgCEx9 : Cfgs := fun t => if t = "warehouse" then some ⟨2, 1, 1⟩ else none

/-- The districts a build with `cfgCEx9` and two accepted sites
produces. -/
def dsCEx9 : List DistrictRec :=
  [⟨0, "warehouse", ⟨0, 0⟩, 0, false, false⟩, ⟨1, "warehouse", ⟨0, 0⟩, 0, false, false⟩]

/-- A well-formed builder configuration: one type with
`MinInCity = 1 ≤ 2 = MaxInCity`. -/
def cfgW9 : Cfgs := fun t => if t = "fields" then some ⟨1, 2, 1⟩ else none

/-- The single district a build with `cfgW9` produces. -/
def dsW9 : List DistrictRec :=
  [⟨0, "fields", ⟨0, 0⟩, 0, false, false⟩]

/-! ## Theorems -/

/-! ### Generic list helpers -/

theorem headI_append_of_ne_nil [Inhabited α] (l r : List α) (h : l ≠ []) :
    (l ++ r).headI = l.headI := by
  cases l with
  | nil => exact absurd rfl h
  | cons a t => rfl

theorem getLastI_concat [Inhabited α] (l : List α) (a : α) : (l ++ [a]).getLastI = a := by
  rw [List.getLastI_eq_getLast?, List.getLast?_concat]

/-! ### C1: the per-point classification priority -/

/-- C1: for every environment and endpoints, `lineSegments` classifies
every rasterized point by exactly the spec's priority order: outside
the given cell ⇒ nothing, else building ⇒ nothing, else fortification ⇒
wall, else buildable ⇒ road, else bridgeable ⇒ bridge, else nothing
(`classifyPointSpec`), and its output is the run split of that
classification. -/
theorem lineSegments_classifies_by_priority (env : ClassifyEnv) (s e : Pt) :
    (∀ p, classifyPoint env p = classifyPointSpec env p) ∧
    lineSegments env s e = lineSegmentsWith (classifyPointSpec env) s e :=
  ⟨fun _ => rfl, rfl⟩

/-! ### C2/C3: run splitting of the classified path -/

theorem runsAux_ne_nil (key : α → Cls) (cur : List α) (c : Cls) (l : List α) :
    runsAux key cur c l ≠ [] := by
  induction l generalizing cur c with
  | nil => simp [runsAux]
  | cons a rest ih =>
    simp only [runsAux]
    split
    · exact ih _ _
    · simp

theorem runsAux_flatten (key : α → Cls) (l : List α) :
    ∀ (cur : List α) (c : Cls), ((runsAux key cur c l).map Prod.fst).flatten = cur ++ l := by
  induction l with
  | nil => intro cur c; simp [runsAux]
  | cons a rest ih =>
    intro cur c
    simp only [runsAux]
    split
    · rw [ih]
      simp
    · simp [ih]

theorem runsAux_headI_snd (key : α → Cls) (l : List α) :
    ∀ (cur : List α) (c : Cls), (runsAux key cur c l).headI.2 = c := by
  induction l with
  | nil => intro cur c; simp [runsAux]
  | cons a rest ih =>
    intro cur c
    simp only [runsAux]
    split
    · exact ih _ _
    · simp

theorem runsAux_chain (key : α → Cls) (l : List α) :
    ∀ (cur : List α) (c : Cls), List.Chain' (fun a b => a.2 ≠ b.2) (runsAux key cur c l) := by
  induction l with
  | nil => intro cur c; simp [runsAux]
  | cons a rest ih =>
    intro cur c
    simp only [runsAux]
    split
    · exact ih _ _
    · rename_i hne
      rw [List.chain'_cons']
      refine ⟨?_, ih _ _⟩
      intro y hy
      obtain ⟨b, L, hbl⟩ := List.exists_cons_of_ne_nil (runsAux_ne_nil key [a] (key a) rest)
      have hb : b.2 = key a := by
        have := runsAux_headI_snd key rest [a] (key a)
        rw [hbl] at this
        simpa using this
      rw [hbl] at hy
      simp at hy
      subst hy
      simp only [hb]
      intro hcontra
      exact hne hcontra.symm

theorem runsAux_uniform (key : α → Cls) (l : List α) :
    ∀ (cur : List α) (c : Cls), cur ≠ [] → (∀ x ∈ cur, key x = c) →
      ∀ r ∈ runsAux key cur c l, r.1 ≠ [] ∧ ∀ x ∈ r.1, key x = r.2 := by
  induction l with
  | nil =>
    intro cur c hne hcur r hr
    simp [runsAux] at hr
    subst hr
    exact ⟨hne, hcur⟩
  | cons a rest ih =>
    intro cur c hne hcur r hr
    simp only [runsAux] at hr
    split at hr
    · rename_i hka
      refine ih (cur ++ [a]) c (by simp) ?_ r hr
      intro x hx
      rcases List.mem_append.1 hx with hx | hx
      · exact hcur x hx
      · simp at hx
        subst hx
        exact hka
    · rcases List.mem_cons.1 hr with hr | hr
      · subst hr
        exact ⟨hne, hcur⟩
      · exact ih [a] (key a) (by simp) (by simp) r hr

theorem runs_flatten (key : α → Cls) (l : List α) :
    ((runs key l).map Prod.fst).flatten = l := by
  cases l with
  | nil => rfl
  | cons a rest => simpa using runsAux_flatten key rest [a] (key a)

theorem runs_chain (key : α → Cls) (l : List α) :
    List.Chain' (fun a b => a.2 ≠ b.2) (runs key l) := by
  cases l with
  | nil => simp [runs]
  | cons a rest => exact runsAux_chain key rest [a] (key a)

theorem runs_uniform (key : α → Cls) (l : List α) :
    ∀ r ∈ runs key l, r.1 ≠ [] ∧ ∀ x ∈ r.1, key x = r.2 := by
  cases l with
  | nil => simp [runs]
  | cons a rest => exact runsAux_uniform key rest [a] (key a) (by simp) (by simp)

theorem segLoop_eq_emitAll (l : List (Pt × Cls)) :
    ∀ (acc : SegResult) (cur : List (Pt × Cls)) (c : Cls), cur ≠ [] →
      segLoop acc cur.headI.1 c cur.getLastI.1 cur.length l =
        emitAll acc (runsAux Prod.snd cur c l) := by
  induction l with
  | nil =>
    intro acc cur c h
    simp [segLoop, runsAux, emitAll, runEnds]
  | cons pc rest ih =>
    intro acc cur c h
    obtain ⟨p, cc⟩ := pc
    simp only [segLoop, runsAux]
    by_cases hc : cc = c
    · rw [if_pos hc]
      have hkey : Prod.snd (p, cc) = c := hc
      rw [if_pos hkey]
      have := ih acc (cur ++ [(p, cc)]) c (by simp)
      rw [headI_append_of_ne_nil _ _ h, getLastI_concat, List.length_append] at this
      simpa using this
    · rw [if_neg hc]
      have hkey : ¬ Prod.snd (p, cc) = c := hc
      rw [if_neg hkey]
      obtain ⟨b, L, hbl⟩ :=
        List.exists_cons_of_ne_nil (runsAux_ne_nil Prod.snd [(p, cc)] cc rest)
      rw [hbl, emitAll, ← hbl]
      have := ih (emitRun acc c cur.headI.1 cur.getLastI.1) [(p, cc)] cc (by simp)
      simpa [runEnds] using this

theorem lineSegmentsWith_eq_emitAll (cls : Pt → Cls) (s e : Pt) :
    lineSegmentsWith cls s e =
      emitAll ⟨[], [], []⟩ (runs Prod.snd ((pointsBetween s e).map fun p => (p, cls p))) := by
  unfold lineSegmentsWith runs
  cases h : (pointsBetween s e).map (fun p => (p, cls p)) with
  | nil => rfl
  | cons pc rest =>
    obtain ⟨p, c⟩ := pc
    have := segLoop_eq_emitAll rest ⟨[], [], []⟩ [(p, c)] c (by simp)
    simpa using this

/-- C2: the emitted sub-segments are the runs of the classified path.
As stated the claim fails (see the counterexample): runs can be
dropped.  Amended: the tagged path splits into maximal runs of equal
classification (their concatenation reproduces the path, adjacent runs
differ, every point of a run carries the run's class), and
`lineSegments` equals the run-level emission `emitAll`, which emits
`(first, last)` of every road/wall run followed by another run, emits
such a bridge run only when a road run was emitted before it, emits the
final run of any class only when it has at least two points, and drops
`nothing` runs. -/
theorem lineSegments_run_reconstruction (env : ClassifyEnv) (s e : Pt) :
    ((pathRuns env s e).map Prod.fst).flatten = taggedPath env s e ∧
    List.Chain' (fun a b => a.2 ≠ b.2) (pathRuns env s e) ∧
    (∀ r ∈ pathRuns env s e, r.1 ≠ [] ∧ ∀ x ∈ r.1, x.2 = r.2) ∧
    lineSegments env s e = emitAll ⟨[], [], []⟩ (pathRuns env s e) := by
  refine ⟨runs_flatten _ _, runs_chain _ _, runs_uniform _ _, ?_⟩
  exact lineSegmentsWith_eq_emitAll (classifyPoint env) s e

/-- C2 counterexample: on the two-point path `(0,0)–(1,0)` whose first
point is bridgeable and whose second point is buildable, the second
point is classified road yet `lineSegments` emits nothing at all, so
the rasterized path is not reconstructed by the emitted sub-segments
plus `nothing` points. -/
theorem lineSegments_drops_final_point :
    classifyPoint envCEx2 ⟨1, 0⟩ = Cls.road ∧
    pointsBetween ⟨0, 0⟩ ⟨1, 0⟩ = [⟨0, 0⟩, ⟨1, 0⟩] ∧
    lineSegments envCEx2 ⟨0, 0⟩ ⟨1, 0⟩ = ⟨[], [], []⟩ := by
  decide

/-- C2 witness: a fully buildable four-point path, where the single
road run is reconstructed. -/
theorem lineSegments_run_reconstruction_witness :
    lineSegments envAllRoad ⟨0, 0⟩ ⟨3, 0⟩ = emitAll ⟨[], [], []⟩ (pathRuns envAllRoad ⟨0, 0⟩ ⟨3, 0⟩) ∧
    pathRuns envAllRoad ⟨0, 0⟩ ⟨3, 0⟩ =
      [([(⟨0, 0⟩, Cls.road), (⟨1, 0⟩, Cls.road), (⟨2, 0⟩, Cls.road), (⟨3, 0⟩, Cls.road)], Cls.road)] ∧
    (lineSegments envAllRoad ⟨0, 0⟩ ⟨3, 0⟩).roads = [(⟨0, 0⟩, ⟨3, 0⟩)] :=
  ⟨(lineSegments_run_reconstruction envAllRoad ⟨0, 0⟩ ⟨3, 0⟩).2.2.2, by decide, by decide⟩

theorem emitAll_bridges_spec :
    ∀ (rs : List (List (Pt × Cls) × Cls)) (acc : SegResult),
      (emitAll acc rs).bridges =
        acc.bridges ++ specBridgesAux (decide (0 < acc.roads.length)) rs := by
  intro rs
  induction rs with
  | nil => intro acc; simp [emitAll, specBridgesAux]
  | cons x tail ih =>
    intro acc
    obtain ⟨run, c⟩ := x
    cases tail with
    | nil =>
      simp only [emitAll, specBridgesAux]
      by_cases h1 : run.length = 1
      · simp [h1]
      · cases c <;> simp [h1, emitFinal]
    | cons y t =>
      simp only [emitAll, specBridgesAux]
      rw [ih]
      cases c with
      | nothing => simp [emitRun]
      | road => simp [emitRun]
      | wall => simp [emitRun]
      | bridge =>
        simp only [emitRun]
        by_cases hr : 0 < acc.roads.length
        · simp [hr]
        · simp [hr]

/-- C3: which bridge runs are emitted.  As stated the claim fails (see
the counterexample): a bridge run at the very start of the path *is*
emitted when it is the final run with at least two points, and a
mid-path bridge run is *dropped* when no road run precedes it.
Amended: a bridge run followed by another run is emitted exactly when a
road run occurs earlier in the path, and the final run, when a bridge,
is emitted exactly when it has at least two points, regardless of
earlier roads (`specBridgesAux` starting with no road seen). -/
theorem lineSegments_bridge_rule (env : ClassifyEnv) (s e : Pt) :
    (lineSegments env s e).bridges = specBridgesAux false (pathRuns env s e) := by
  have h := lineSegmentsWith_eq_emitAll (classifyPoint env) s e
  have h2 := emitAll_bridges_spec (pathRuns env s e) ⟨[], [], []⟩
  unfold lineSegments
  rw [h]
  unfold pathRuns taggedPath at h2 ⊢
  simpa using h2

/-- C3 counterexample: on a fully bridgeable two-point path the bridge
run begins at the very first rasterized point and no road run is ever
emitted, yet the run *is* emitted as a bridge sub-segment. -/
theorem lineSegments_emits_leading_bridge :
    classifyPoint envCEx3 ⟨0, 0⟩ = Cls.bridge ∧
    (pointsBetween ⟨0, 0⟩ ⟨1, 0⟩).headI = ⟨0, 0⟩ ∧
    (lineSegments envCEx3 ⟨0, 0⟩ ⟨1, 0⟩).roads = [] ∧
    (lineSegments envCEx3 ⟨0, 0⟩ ⟨1, 0⟩).bridges = [(⟨0, 0⟩, ⟨1, 0⟩)] := by
  decide

/-- C3 witness: roads then a trailing two-point bridge; the bridge rule
instantiated and evaluated. -/
theorem lineSegments_bridge_rule_witness :
    (lineSegments envRoadThenBridge ⟨0, 0⟩ ⟨3, 0⟩).bridges =
      specBridgesAux false (pathRuns envRoadThenBridge ⟨0, 0⟩ ⟨3, 0⟩) ∧
    (lineSegments envRoadThenBridge ⟨0, 0⟩ ⟨3, 0⟩).bridges = [(⟨2, 0⟩, ⟨3, 0⟩)] :=
  ⟨lineSegments_bridge_rule envRoadThenBridge ⟨0, 0⟩ ⟨3, 0⟩, by decide⟩

/-! ### C5: the nearest-site query -/

/-- C5: evidence for the code bug in `SiteFor`.  The loop tests
`dist == 0` — the distance of the *previous* best site — and then
returns the *current* site, so with sites `[(0,0), (5,5)]` and query
`(0,0)` the zero-distance site at index 0 is recorded, and the next
iteration returns the far site `(5,5)` (squared distance 50) instead of
the nearest site, contradicting both the claim and the function's own
doc comment. -/
theorem siteFor_returns_far_site_after_zero_hit :
    siteFor [⟨0, 0⟩, ⟨5, 5⟩] ⟨0, 0⟩ = some (1, ⟨5, 5⟩) ∧
    distSq ⟨0, 0⟩ ⟨0, 0⟩ = 0 ∧ distSq ⟨5, 5⟩ ⟨0, 0⟩ = 50 := by
  decide

/-! ### C8: out-of-bounds spatial-map reads -/

/-- C8 counterexample: out of bounds, `BuildingID` and `District` do
not return only an absent value — both return a non-nil error (second
component `false`) alongside their sentinels. -/
theorem buildingID_district_oob_error :
    isOutOfBounds mapZero (-5) (-5) = true ∧
    (buildingIDM mapZero (-5) (-5)).2 = false ∧
    (districtM mapZero (-5) (-5)).2 = false := by
  decide

/-- C8: out-of-bounds reads.  As stated the claim fails for `District`
and `BuildingID` (see the counterexample).  Amended: the five flag
queries return `false` for every out-of-bounds coordinate; `District`
and `BuildingID` return their absent sentinels (`Empty`/`-1` and `-1`)
*together with* a non-nil error. -/
theorem spatialMap_oob_reads (m : MapState) (x y : Int)
    (h : isOutOfBounds m x y = true) :
    isRoadM m x y = false ∧ isBridgeM m x y = false ∧ isWallM m x y = false ∧
    isTowerM m x y = false ∧ isGatehouseM m x y = false ∧
    buildingIDM m x y = (-1, false) ∧ districtM m x y = ((0, -1), false) := by
  simp [isRoadM, isBridgeM, isWallM, isTowerM, isGatehouseM, buildingIDM, districtM, h]

/-- C8 witness: the amended statement instantiated just past the map
maximum. -/
theorem spatialMap_oob_reads_witness :
    isOutOfBounds mapZero 11 0 = true ∧
    (isRoadM mapZero 11 0 = false ∧ isBridgeM mapZero 11 0 = false ∧
     isWallM mapZero 11 0 = false ∧ isTowerM mapZero 11 0 = false ∧
     isGatehouseM mapZero 11 0 = false ∧
     buildingIDM mapZero 11 0 = (-1, false) ∧ districtM mapZero 11 0 = ((0, -1), false)) :=
  ⟨by decide, spatialMap_oob_reads mapZero 11 0 (by decide)⟩

/-! ### C10: `endDraw` and the structural flags -/

theorem getBM_endDraw_some (wbrw : Int) (o : OutlineM) (m : MapState) (p : Pt) (bm : Nat)
    (hin : inDrawBounds m.bnds p = true) (hdec : decodeBM wbrw o m.scratch p = some bm) :
    getBM (endDraw wbrw o m) p = bm % 256 := by
  simp only [endDraw, getBM, hin, if_pos, hdec, setBMPixel]
  omega

/-- C10: after `endDraw` commits the drawing surface, any in-bounds
coordinate whose flag byte was previously clear (as it is for every
pixel in a real build: `setBM` is only reached from `endDraw` itself)
has at most one of the wall / tower / gatehouse flags set — the decode
thresholds `b ≥ 150` / `b ≥ 100` / `b ≥ 50` are mutually exclusive
branches — and every committed bitmap replaces the whole prior flag
byte. -/
theorem endDraw_three_flags_exclusive (wbrw : Int) (o : OutlineM) (m : MapState) (p : Pt)
    (hprior : getBM m p = 0) :
    flagCount3 (getBM (endDraw wbrw o m) p) ≤ 1 ∧
    (∀ bm, inDrawBounds m.bnds p = true → decodeBM wbrw o m.scratch p = some bm →
      getBM (endDraw wbrw o m) p = bm % 256) := by
  constructor
  · by_cases hin : inDrawBounds m.bnds p = true
    · cases hdec : decodeBM wbrw o m.scratch p with
      | none =>
        have : getBM (endDraw wbrw o m) p = getBM m p := by
          simp [endDraw, getBM, hin, hdec]
        rw [this, hprior]
        decide
      | some bm =>
        rw [getBM_endDraw_some wbrw o m p bm hin hdec]
        unfold decodeBM at hdec
        dsimp only at hdec
        split_ifs at hdec <;> (injection hdec with hbm) <;> subst hbm <;> decide
    · have : getBM (endDraw wbrw o m) p = getBM m p := by
        simp [endDraw, getBM, hin]
      rw [this, hprior]
      decide
  · intro bm hin hdec
    exact getBM_endDraw_some wbrw o m p bm hin hdec

/-- C10 witness: the drawn tower pixel decodes to exactly the tower
flag. -/
theorem endDraw_three_flags_exclusive_witness :
    getBM mapTowerScr ⟨1, 1⟩ = 0 ∧
    (flagCount3 (getBM (endDraw 0 outlineNone mapTowerScr) ⟨1, 1⟩) ≤ 1 ∧
     (∀ bm, inDrawBounds mapTowerScr.bnds ⟨1, 1⟩ = true →
        decodeBM 0 outlineNone mapTowerScr.scratch ⟨1, 1⟩ = some bm →
        getBM (endDraw 0 outlineNone mapTowerScr) ⟨1, 1⟩ = bm % 256)) ∧
    getBM (endDraw 0 outlineNone mapTowerScr) ⟨1, 1⟩ = 8 :=
  ⟨by decide, endDraw_three_flags_exclusive 0 outlineNone mapTowerScr ⟨1, 1⟩ (by decide),
   by decide⟩

/-! ### C4: the boundary extractor -/

theorem pt_ext {a b : Pt} (hx : a.x = b.x) (hy : a.y = b.y) : a = b := by
  cases a
  cases b
  simp_all

theorem canonEdge_swap (e : Pt × Pt) : canonEdge (Prod.swap e) = canonEdge e := by
  obtain ⟨a, b⟩ := e
  simp only [canonEdge, Prod.swap_prod_mk]
  split_ifs with h1 h2 h3 h4 h5 h6 h7 h8 <;> try rfl
  all_goals try (exfalso; omega)
  all_goals
    have hab : a = b := pt_ext (by omega) (by omega)
  all_goals rw [hab]

theorem insideLinks_swap (inside : List CellT) (l : Pt × Pt) :
    Prod.swap l ∈ insideLinks inside ↔ l ∈ insideLinks inside := by
  obtain ⟨v, n⟩ := l
  simp only [insideLinks, List.mem_flatMap, Prod.swap_prod_mk]
  constructor
  all_goals
    rintro ⟨s, hs, e, he, h⟩
    refine ⟨s, hs, e, he, ?_⟩
    simp only [List.mem_cons, List.mem_singleton, Prod.mk.injEq] at h ⊢
    tauto

theorem keepLink_swap (bnds : RectT) (outside : List CellT) (l : Pt × Pt) :
    keepLink bnds outside (Prod.swap l) = keepLink bnds outside l := by
  obtain ⟨v, n⟩ := l
  simp only [keepLink, Prod.swap_prod_mk]
  rw [Bool.eq_iff_iff]
  simp only [Bool.or_eq_true, Bool.and_eq_true, decide_eq_true_eq]
  rw [show canonEdge (n, v) = canonEdge (v, n) from canonEdge_swap (v, n)]
  tauto

theorem prodSwap_eq_iff (l m : Pt × Pt) : Prod.swap l = m ↔ l = Prod.swap m := by
  constructor <;> intro h
  · rw [← h, Prod.swap_swap]
  · rw [h, Prod.swap_swap]

theorem killPair_swap_inv (valid : Pt × Pt → Bool) (m : Pt × Pt)
    (hv : ∀ l, valid (Prod.swap l) = valid l) (l : Pt × Pt) :
    killPair valid m (Prod.swap l) = killPair valid m l := by
  have hms : ((m.2, m.1) : Pt × Pt) = Prod.swap m := rfl
  unfold killPair
  rw [hms]
  by_cases h : l = m ∨ l = Prod.swap m
  · rw [if_pos, if_pos h]
    rcases h with h | h
    · exact Or.inr (by rw [h])
    · exact Or.inl (by rw [h, Prod.swap_swap])
  · rw [if_neg, if_neg h, hv l]
    rintro (h2 | h2)
    · exact h (Or.inr ((prodSwap_eq_iff l m).1 h2))
    · exact h (Or.inl (by
        have := congrArg Prod.swap h2
        rwa [Prod.swap_swap, Prod.swap_swap] at this))

theorem killPair_eq_false (valid : Pt × Pt → Bool) (m l : Pt × Pt)
    (h : l = m ∨ l = Prod.swap m) : killPair valid m l = false := by
  unfold killPair
  exact if_pos h

theorem killPair_eq_valid (valid : Pt × Pt → Bool) (m l : Pt × Pt)
    (h1 : l ≠ m) (h2 : l ≠ Prod.swap m) : killPair valid m l = valid l := by
  unfold killPair
  rw [if_neg]
  rintro (h | h)
  · exact h1 h
  · exact h2 h

theorem delLoop_mem (keep : Pt × Pt → Bool) (hk : ∀ l, keep (Prod.swap l) = keep l) :
    ∀ (links : List (Pt × Pt)) (valid : Pt × Pt → Bool),
      (∀ l, valid (Prod.swap l) = valid l) → ∀ l : Pt × Pt,
      (delLoop keep links valid l = true ↔
        (valid l = true ∧ ((l ∈ links ∨ Prod.swap l ∈ links) → keep l = true))) := by
  intro links
  induction links with
  | nil =>
    intro valid hv l
    simp [delLoop]
  | cons m rest ih =>
    intro valid hv l
    simp only [delLoop]
    by_cases hlm : l = m ∨ l = Prod.swap m
    · have hkeq : keep l = keep m := by
        rcases hlm with h | h
        · rw [h]
        · rw [h, hk m]
      have hveq : valid l = valid m := by
        rcases hlm with h | h
        · rw [h]
        · rw [h, hv m]
      have hmem : l ∈ m :: rest ∨ Prod.swap l ∈ m :: rest := by
        rcases hlm with h | h
        · exact Or.inl (h ▸ List.mem_cons_self m rest)
        · exact Or.inr (by rw [h, Prod.swap_swap]; exact List.mem_cons_self m rest)
      by_cases hvm : valid m = true
      · rw [if_pos hvm]
        by_cases hkm : keep m = true
        · rw [if_pos hkm, ih valid hv l]
          constructor
          · rintro ⟨h1, _⟩
            exact ⟨h1, fun _ => hkeq ▸ hkm⟩
          · rintro ⟨h1, _⟩
            exact ⟨h1, fun _ => hkeq ▸ hkm⟩
        · rw [if_neg hkm]
          rw [ih (killPair valid m) (killPair_swap_inv valid m hv) l]
          rw [killPair_eq_false valid m l hlm]
          constructor
          · rintro ⟨h1, _⟩
            exact absurd h1 (by simp)
          · rintro ⟨_, himp⟩
            exact absurd (hkeq ▸ himp hmem) hkm
      · rw [if_neg hvm]
        rw [ih valid hv l]
        constructor
        · rintro ⟨h1, _⟩
          exact absurd (hveq ▸ h1) hvm
        · rintro ⟨h1, _⟩
          exact absurd (hveq ▸ h1) hvm
    · push_neg at hlm
      obtain ⟨hne1, hne2⟩ := hlm
      have hsne : Prod.swap l ≠ m := by
        intro h
        exact hne2 ((prodSwap_eq_iff l m).1 h)
      have hmemiff : (l ∈ m :: rest ∨ Prod.swap l ∈ m :: rest) ↔
          (l ∈ rest ∨ Prod.swap l ∈ rest) := by
        simp only [List.mem_cons]
        constructor
        · rintro ((h | h) | (h | h))
          · exact absurd h hne1
          · exact Or.inl h
          · exact absurd h hsne
          · exact Or.inr h
        · rintro (h | h)
          · exact Or.inl (Or.inr h)
          · exact Or.inr (Or.inr h)
      by_cases hvm : valid m = true
      · rw [if_pos hvm]
        by_cases hkm : keep m = true
        · rw [if_pos hkm, ih valid hv l, hmemiff]
        · rw [if_neg hkm]
          rw [ih (killPair valid m) (killPair_swap_inv valid m hv) l]
          rw [killPair_eq_valid valid m l hne1 hne2, hmemiff]
      · rw [if_neg hvm, ih valid hv l, hmemiff]

/-- C4: a link `(v, n)` built from the edges of the inside cells
survives `deletionMethod` (and so appears in the `Circut` result)
exactly when either both `v` and `n` are vertices of some outside cell
and the canonical edge `(v, n)` is an edge of some outside cell, or
both `v` and `n` lie within one unit of the map boundary; every other
link is deleted in both directions and does not appear. -/
theorem deletionMethod_links (bnds : RectT) (inside outside : List CellT) (l : Pt × Pt) :
    l ∈ deletionMethod bnds inside outside ↔
      (l ∈ insideLinks inside ∧
        ((l.1 ∈ outsideVerts outside ∧ l.2 ∈ outsideVerts outside ∧
          canonEdge l ∈ outsideEdges outside) ∨
         (onBorder bnds l.1 = true ∧ onBorder bnds l.2 = true))) := by
  unfold deletionMethod
  rw [List.mem_filter]
  rw [delLoop_mem (keepLink bnds outside) (keepLink_swap bnds outside)
    ((insideLinks inside).dedup) (fun _ => true) (fun _ => rfl) l]
  simp only [List.mem_dedup, true_and]
  constructor
  · rintro ⟨hmem, himp⟩
    have hk := himp (Or.inl hmem)
    refine ⟨hmem, ?_⟩
    simp only [keepLink, Bool.or_eq_true, Bool.and_eq_true, decide_eq_true_eq] at hk
    tauto
  · rintro ⟨hmem, hcond⟩
    refine ⟨hmem, fun _ => ?_⟩
    simp only [keepLink, Bool.or_eq_true, Bool.and_eq_true, decide_eq_true_eq]
    tauto

/-! ### C6: tower spacing along a wall -/

theorem isqrtDown_eq (n : Nat) : ∀ b, Nat.sqrt n ≤ b → isqrtDown n b = Nat.sqrt n := by
  intro b
  induction b with
  | zero =>
    intro h
    simp only [isqrtDown]
    omega
  | succ k ih =>
    intro h
    simp only [isqrtDown]
    by_cases hk : (k + 1) * (k + 1) ≤ n
    · rw [if_pos hk]
      have h1 : k + 1 ≤ Nat.sqrt n := Nat.le_sqrt.2 hk
      omega
    · rw [if_neg hk]
      apply ih
      have h2 : ¬ (k + 1 ≤ Nat.sqrt n) := fun hc => hk (Nat.le_sqrt.1 hc)
      omega

/-- `isqrt` is the floored square root. -/
theorem isqrt_eq_sqrt (n : Nat) : isqrt n = Nat.sqrt n :=
  isqrtDown_eq n n (Nat.sqrt_le_self n)

theorem rectCentre_towerArea (cfg : TowerCfg) (px py : Int) :
    rectCentre (towerArea cfg px py) = ⟨px, py⟩ := by
  unfold rectCentre towerArea
  simp only
  congr 1
  · rw [show px + (cfg.tw / 2 : Nat) + (px - (cfg.tw / 2 : Nat)) = 2 * px by ring]
    exact Int.mul_tdiv_cancel_left px (by decide)
  · rw [show py + (cfg.th / 2 : Nat) + (py - (cfg.th / 2 : Nat)) = 2 * py by ring]
    exact Int.mul_tdiv_cancel_left py (by decide)

theorem spacedExt_refl (allT : List RectT) (m : Nat) (towers : List RectT) :
    spacedExt allT m towers towers := by
  refine ⟨⟨[], by simp⟩, ?_⟩
  intro j h hj
  omega

theorem spacedExt_trans (allT : List RectT) (m : Nat) (old mid new : List RectT)
    (h1 : spacedExt allT m old mid) (h2 : spacedExt allT m mid new) :
    spacedExt allT m old new := by
  obtain ⟨⟨t1, e1⟩, p1⟩ := h1
  obtain ⟨⟨t2, e2⟩, p2⟩ := h2
  subst e2
  refine ⟨⟨t1 ++ t2, by rw [e1, List.append_assoc]⟩, ?_⟩
  intro j h hj
  by_cases hmid : j < mid.length
  · have hget : (mid ++ t2).get ⟨j, h⟩ = mid.get ⟨j, hmid⟩ := by
      rw [List.get_eq_getElem, List.get_eq_getElem, List.getElem_append_left hmid]
    have htake : (mid ++ t2).take j = mid.take j :=
      List.take_append_of_le_length (le_of_lt hmid)
    rw [hget, htake]
    exact p1 j hmid hj
  · push_neg at hmid
    exact p2 j h hmid

theorem tryPlaceTower_spaced (cfg : TowerCfg) (o : OutlineM) (blocked : Pt → Bool)
    (allT towers : List RectT) (p : Pt) (m : Nat) :
    spacedExt allT m towers (tryPlaceTower cfg o blocked allT towers p m) := by
  simp only [tryPlaceTower]
  by_cases hfit : (towerFits cfg o blocked p.x p.y).2 = true
  · rw [hfit]
    simp only [Bool.not_true]
    rw [if_neg (by simp)]
    by_cases hrej : (decide (0 < m) &&
        (allT ++ towers).any fun t => decide (distFloor (rectCentre t) p < m)) = true
    · rw [if_pos hrej]
      exact spacedExt_refl allT m towers
    · rw [if_neg hrej]
      refine ⟨⟨[(towerFits cfg o blocked p.x p.y).1], rfl⟩, ?_⟩
      intro j h hj
      have hlen : j < towers.length + 1 := by simpa using h
      have hje : j = towers.length := by omega
      subst hje
      intro t ht
      have hget : (towers ++ [(towerFits cfg o blocked p.x p.y).1]).get ⟨towers.length, h⟩ =
          (towerFits cfg o blocked p.x p.y).1 := by
        rw [List.get_eq_getElem]
        exact List.getElem_concat_length _ _ _ rfl _
      rw [hget]
      have hcent : rectCentre (towerFits cfg o blocked p.x p.y).1 = p := by
        unfold towerFits
        simp only
        rw [rectCentre_towerArea]
      rw [hcent]
      rcases Nat.eq_zero_or_pos m with hm | hm
      · omega
      · have hrej2 := (Bool.not_eq_true _) ▸ hrej
        rcases Bool.and_eq_false_iff.1 hrej2 with hh | hh
        · rw [decide_eq_false_iff_not] at hh
          omega
        · rw [List.any_eq_false] at hh
          have ht2 : t ∈ allT ++ towers := by
            rwa [List.take_left] at ht
          have := hh t ht2
          simpa using this
  · have hfit2 := (Bool.not_eq_true _) ▸ hfit
    rw [hfit2]
    simp only [Bool.not_false]
    rw [if_pos trivial]
    exact spacedExt_refl allT m towers

theorem fillLoop_spaced (cfg : TowerCfg) (o : OutlineM) (blocked : Pt → Bool)
    (allT : List RectT) (pnts : List Pt) :
    ∀ (fuel i : Nat) (towers : List RectT),
      spacedExt allT cfg.mdbt towers (fillLoop cfg o blocked allT pnts fuel i towers) := by
  intro fuel
  induction fuel with
  | zero => intro i towers; exact spacedExt_refl _ _ _
  | succ n ih =>
    intro i towers
    simp only [fillLoop]
    split
    · exact spacedExt_trans _ _ _ _ _
        (tryPlaceTower_spaced cfg o blocked allT towers _ cfg.mdbt) (ih _ _)
    · exact spacedExt_refl _ _ _

/-- C6: towers placed by `fillWithTowers`.  The two endpoint candidates
are placed first, each at least `mdbt/2` (integer half) from every
previously placed tower; every interior candidate placed by the
spacing-stride loop is at least `mdbt` from every previously placed
tower (the `allTowers` accumulator of earlier calls, the running
`towers` accumulator, the endpoint towers, and earlier interior
towers). -/
theorem fillWithTowers_spacing (cfg : TowerCfg) (o : OutlineM) (blocked : Pt → Bool)
    (allT towers0 : List RectT) (a b : Pt) :
    spacedExt allT (cfg.mdbt / 2) towers0
      (tryPlaceTower cfg o blocked allT
        (tryPlaceTower cfg o blocked allT towers0 a (cfg.mdbt / 2)) b (cfg.mdbt / 2)) ∧
    spacedExt allT cfg.mdbt
      (tryPlaceTower cfg o blocked allT
        (tryPlaceTower cfg o blocked allT towers0 a (cfg.mdbt / 2)) b (cfg.mdbt / 2))
      (fillWithTowers cfg o blocked allT towers0 a b) := by
  constructor
  · exact spacedExt_trans _ _ _ _ _
      (tryPlaceTower_spaced cfg o blocked allT towers0 a (cfg.mdbt / 2))
      (tryPlaceTower_spaced cfg o blocked allT _ b (cfg.mdbt / 2))
  · unfold fillWithTowers
    exact fillLoop_spaced cfg o blocked allT _ _ _ _

/-- C6 witness: on the path `(0,0)–(5,0)` with spacing 2 the towers at
`(0,0)`, `(5,0)` and `(2,0)` are placed (the candidate at `(4,0)` is
rejected for being within distance 2 of the endpoint tower), and the
spacing bound instantiates at the interior tower. -/
theorem fillWithTowers_spacing_witness :
    fillWithTowers cfgTW outlineAllBuild (fun _ => false) [] [] ⟨0, 0⟩ ⟨5, 0⟩ =
      [⟨⟨0, 0⟩, ⟨0, 0⟩⟩, ⟨⟨5, 0⟩, ⟨5, 0⟩⟩, ⟨⟨2, 0⟩, ⟨2, 0⟩⟩] ∧
    2 ≤ distFloor (rectCentre ⟨⟨0, 0⟩, ⟨0, 0⟩⟩) (rectCentre ⟨⟨2, 0⟩, ⟨2, 0⟩⟩) := by
  constructor
  · decide
  · have h := (fillWithTowers_spacing cfgTW outlineAllBuild (fun _ => false)
      [] [] ⟨0, 0⟩ ⟨5, 0⟩).2
    obtain ⟨_, hp⟩ := h
    exact hp 2 (by decide) (by decide) ⟨⟨0, 0⟩, ⟨0, 0⟩⟩ (by decide)

/-! ### C7: promotion of the nearest outside districts -/

/-- C7: with `f < m` naturally fortified districts and more than `m - f`
outside districts, `addWalls` promotes exactly `m - f` outside
districts: the inside list is extended by the first `m - f` districts of
the distance-sorted outside list with `HasFortifications` set, the rest
stay outside, and every promoted district's site is at least as close to
the centre as every remaining outside district's site. -/
theorem promoteFortified_promotes_nearest (centre : Pt) (minFort : Int)
    (inside outside : List DistrictRec)
    (h1 : (inside.length : Int) < minFort)
    (h2 : minFort - (inside.length : Int) < (outside.length : Int)) :
    ∃ sorted : List DistrictRec,
      sorted.Perm outside ∧
      (promoteFortified centre minFort inside outside).1 =
        inside ++ (sorted.take (minFort - (inside.length : Int)).toNat).map setFortified ∧
      (promoteFortified centre minFort inside outside).2 =
        sorted.drop (minFort - (inside.length : Int)).toNat ∧
      ((promoteFortified centre minFort inside outside).1.length : Int) = minFort ∧
      (∀ d ∈ (promoteFortified centre minFort inside outside).1.drop inside.length,
        d.hasFort = true) ∧
      (∀ d ∈ (promoteFortified centre minFort inside outside).1.drop inside.length,
        ∀ q ∈ (promoteFortified centre minFort inside outside).2,
          distSq d.site centre ≤ distSq q.site centre) := by
  have hres : promoteFortified centre minFort inside outside =
      (inside ++ ((sortDistrictsByDistance centre outside).take
          (minFort - (inside.length : Int)).toNat).map setFortified,
        (sortDistrictsByDistance centre outside).drop
          (minFort - (inside.length : Int)).toNat) := by
    unfold promoteFortified
    rw [if_pos (by omega), if_neg (by omega)]
  set r : DistrictRec → DistrictRec → Prop :=
    fun a b => distSq a.site centre ≤ distSq b.site centre with hr
  haveI htot : IsTotal DistrictRec r := ⟨fun a b => le_total _ _⟩
  haveI htr : IsTrans DistrictRec r := ⟨fun _ _ _ hab hbc => le_trans hab hbc⟩
  have hperm : (sortDistrictsByDistance centre outside).Perm outside :=
    List.perm_insertionSort r outside
  have hsorted : List.Sorted r (sortDistrictsByDistance centre outside) :=
    List.sorted_insertionSort r outside
  refine ⟨sortDistrictsByDistance centre outside, hperm, by rw [hres], by rw [hres], ?_, ?_, ?_⟩
  · rw [hres]
    simp only [List.length_append, List.length_map, List.length_take]
    have hlen : (sortDistrictsByDistance centre outside).length = outside.length :=
      hperm.length_eq
    omega
  · rw [hres]
    simp only [List.drop_left]
    intro d hd
    obtain ⟨y, _, hy2⟩ := List.mem_map.1 hd
    rw [← hy2]
    rfl
  · rw [hres]
    simp only [List.drop_left]
    intro d hd q hq
    obtain ⟨y, hy1, hy2⟩ := List.mem_map.1 hd
    set n := (minFort - (inside.length : Int)).toNat
    have hsplit := List.take_append_drop n (sortDistrictsByDistance centre outside)
    rw [← hsplit] at hsorted
    have hpw := (List.pairwise_append.1 hsorted).2.2
    have := hpw y hy1 q hq
    rw [← hy2]
    exact this

/-- C7 witness: centre `(0,0)`, `MinFortifiedSites = 3`, one naturally
fortified district and three outside districts at distances 5, 1 and 3:
the two nearest are promoted, the far one stays outside. -/
theorem promoteFortified_promotes_nearest_witness :
    ((insideW.length : Int) < 3 ∧ 3 - (insideW.length : Int) < (outsideW.length : Int)) ∧
    (promoteFortified ⟨0, 0⟩ 3 insideW outsideW).1 =
      [⟨0, "temple", ⟨0, 1⟩, 0, true, false⟩,
       ⟨2, "market", ⟨1, 0⟩, 0, true, false⟩,
       ⟨3, "civic", ⟨3, 0⟩, 0, true, false⟩] ∧
    (promoteFortified ⟨0, 0⟩ 3 insideW outsideW).2 =
      [⟨1, "fields", ⟨5, 0⟩, 0, false, false⟩] ∧
    (∀ d ∈ (promoteFortified ⟨0, 0⟩ 3 insideW outsideW).1.drop insideW.length,
      ∀ q ∈ (promoteFortified ⟨0, 0⟩ 3 insideW outsideW).2,
        distSq d.site ⟨0, 0⟩ ≤ distSq q.site ⟨0, 0⟩) := by
  obtain ⟨sorted, _, _, _, _, _, hn⟩ :=
    promoteFortified_promotes_nearest ⟨0, 0⟩ 3 insideW outsideW (by decide) (by decide)
  exact ⟨⟨by decide, by decide⟩, by decide, by decide, hn⟩

/-! ### C9: district-type counts -/

theorem countType_nil (t : String) : countType [] t = 0 := rfl

theorem countType_cons (d : DistrictRec) (ds : List DistrictRec) (t : String) :
    countType (d :: ds) t = (if d.typ = t then 1 else 0) + countType ds t := by
  by_cases h : d.typ = t
  · simp [countType, List.filter_cons, h]
    omega
  · simp [countType, List.filter_cons, h]

theorem countType_append (a b : List DistrictRec) (t : String) :
    countType (a ++ b) t = countType a t + countType b t := by
  simp [countType, List.filter_append]

theorem countType_reverse (ds : List DistrictRec) (t : String) :
    countType ds.reverse t = countType ds t := by
  simp [countType, List.filter_reverse]

theorem count_minFillOf_notMem (cfgs : Cfgs) (t : String) :
    ∀ l : List String, t ∉ l →
      (l.flatMap fun s =>
        match cfgs s with
        | none => []
        | some dc => List.replicate dc.minInCity s).count t = 0 := by
  intro l
  induction l with
  | nil => intro _; rfl
  | cons a rest ih =>
    intro hmem
    rw [List.flatMap_cons, List.count_append]
    have hat : a ≠ t := fun h => hmem (h ▸ List.mem_cons_self a rest)
    have h1 : (match cfgs a with
        | none => ([] : List String)
        | some dc => List.replicate dc.minInCity a).count t = 0 := by
      cases cfgs a with
      | none => rfl
      | some dc =>
        simp only [List.count_replicate]
        rw [if_neg]
        simp [hat]
    rw [h1, ih (fun h => hmem (List.mem_cons_of_mem a h))]

theorem count_minFillOf_mem (cfgs : Cfgs) (t : String) :
    ∀ l : List String, l.Nodup → t ∈ l →
      (l.flatMap fun s =>
        match cfgs s with
        | none => []
        | some dc => List.replicate dc.minInCity s).count t =
      (match cfgs t with
        | none => 0
        | some dc => dc.minInCity) := by
  intro l
  induction l with
  | nil => intro _ h; cases h
  | cons a rest ih =>
    intro hnd hmem
    rw [List.flatMap_cons, List.count_append]
    rcases List.mem_cons.1 hmem with he | hm
    · subst he
      have hnotin : t ∉ rest := (List.nodup_cons.1 hnd).1
      rw [count_minFillOf_notMem cfgs t rest hnotin]
      cases cfgs t with
      | none => rfl
      | some dc => simp [List.count_replicate]
    · have hat : a ≠ t := by
        intro h
        exact (List.nodup_cons.1 hnd).1 (h ▸ hm)
      have h1 : (match cfgs a with
          | none => ([] : List String)
          | some dc => List.replicate dc.minInCity a).count t = 0 := by
        cases cfgs a with
        | none => rfl
        | some dc =>
          simp only [List.count_replicate]
          rw [if_neg]
          simp [hat]
      rw [h1, ih (List.nodup_cons.1 hnd).2 hm]
      omega

theorem allDistricts_nodup : allDistricts.Nodup := by decide

theorem count_minFill_mem (cfgs : Cfgs) (t : String) (ht : t ∈ allDistricts) :
    (minFill cfgs).count t = (match cfgs t with | none => 0 | some dc => dc.minInCity) :=
  count_minFillOf_mem cfgs t allDistricts allDistricts_nodup ht

theorem count_minFill_notMem (cfgs : Cfgs) (t : String) (ht : t ∉ allDistricts) :
    (minFill cfgs).count t = 0 :=
  count_minFillOf_notMem cfgs t allDistricts ht

theorem count_singleton_le (x y : String) : List.count x [y] ≤ 1 := by
  rw [List.count_cons, List.count_nil]
  split <;> omega

theorem count_singleton_ne (x y : String) (h : y ≠ x) : List.count x [y] = 0 := by
  rw [List.count_cons, List.count_nil]
  simp [h]

theorem randomFillLoop_le (cfgs : Cfgs) (total : ℚ) (target : Nat) :
    ∀ (rng : List ℚ) (dtypes res : List String),
      randomFillLoop cfgs total target rng dtypes = some res →
      ∀ t, dtypes.count t ≤ res.count t := by
  intro rng
  induction rng with
  | nil =>
    intro dtypes res h t
    simp only [randomFillLoop] at h
    by_cases ht : target ≤ dtypes.length
    · rw [if_pos ht] at h
      injection h with h
      rw [h]
    · rw [if_neg ht] at h
      cases h
  | cons rv rest ih =>
    intro dtypes res h t
    simp only [randomFillLoop] at h
    by_cases ht : target ≤ dtypes.length
    · rw [if_pos ht] at h
      injection h with h
      rw [h]
    · rw [if_neg ht] at h
      cases hc : cfgs (chooseDistrictType cfgs total rv) with
      | none =>
        rw [hc] at h
        replace h : randomFillLoop cfgs total target rest dtypes = some res := h
        exact ih dtypes res h t
      | some dc =>
        rw [hc] at h
        replace h : (if 0 < dc.maxInCity ∧
            dc.maxInCity ≤ dtypes.count (chooseDistrictType cfgs total rv) then
              randomFillLoop cfgs total target rest dtypes
            else randomFillLoop cfgs total target rest
              (dtypes ++ [chooseDistrictType cfgs total rv])) = some res := h
        by_cases hskip : 0 < dc.maxInCity ∧
            dc.maxInCity ≤ dtypes.count (chooseDistrictType cfgs total rv)
        · rw [if_pos hskip] at h
          exact ih dtypes res h t
        · rw [if_neg hskip] at h
          have h2 := ih _ res h t
          calc dtypes.count t
              ≤ (dtypes ++ [chooseDistrictType cfgs total rv]).count t := by
                rw [List.count_append]
                omega
            _ ≤ res.count t := h2

theorem randomFillLoop_max (cfgs : Cfgs) (total : ℚ) (target : Nat) :
    ∀ (rng : List ℚ) (dtypes res : List String),
      randomFillLoop cfgs total target rng dtypes = some res →
      (∀ t dc, cfgs t = some dc → 0 < dc.maxInCity → dtypes.count t ≤ dc.maxInCity) →
      ∀ t dc, cfgs t = some dc → 0 < dc.maxInCity → res.count t ≤ dc.maxInCity := by
  intro rng
  induction rng with
  | nil =>
    intro dtypes res h hinv t dc htc hmax
    simp only [randomFillLoop] at h
    by_cases ht : target ≤ dtypes.length
    · rw [if_pos ht] at h
      injection h with h
      rw [← h]
      exact hinv t dc htc hmax
    · rw [if_neg ht] at h
      cases h
  | cons rv rest ih =>
    intro dtypes res h hinv t dc htc hmax
    simp only [randomFillLoop] at h
    by_cases ht : target ≤ dtypes.length
    · rw [if_pos ht] at h
      injection h with h
      rw [← h]
      exact hinv t dc htc hmax
    · rw [if_neg ht] at h
      cases hc : cfgs (chooseDistrictType cfgs total rv) with
      | none =>
        rw [hc] at h
        replace h : randomFillLoop cfgs total target rest dtypes = some res := h
        exact ih dtypes res h hinv t dc htc hmax
      | some dc0 =>
        rw [hc] at h
        replace h : (if 0 < dc0.maxInCity ∧
            dc0.maxInCity ≤ dtypes.count (chooseDistrictType cfgs total rv) then
              randomFillLoop cfgs total target rest dtypes
            else randomFillLoop cfgs total target rest
              (dtypes ++ [chooseDistrictType cfgs total rv])) = some res := h
        by_cases hskip : 0 < dc0.maxInCity ∧
            dc0.maxInCity ≤ dtypes.count (chooseDistrictType cfgs total rv)
        · rw [if_pos hskip] at h
          exact ih dtypes res h hinv t dc htc hmax
        · rw [if_neg hskip] at h
          refine ih _ res h ?_ t dc htc hmax
          intro s dcs hsc hsmax
          rw [List.count_append]
          by_cases hst : s = chooseDistrictType cfgs total rv
          · subst hst
            rw [hc] at hsc
            injection hsc with hsc
            subst hsc
            have hnotle : ¬ dc0.maxInCity ≤
                dtypes.count (chooseDistrictType cfgs total rv) :=
              fun hcon => hskip ⟨hsmax, hcon⟩
            have hone := count_singleton_le (chooseDistrictType cfgs total rv)
              (chooseDistrictType cfgs total rv)
            omega
          · have hz : ([chooseDistrictType cfgs total rv].count s) = 0 :=
              count_singleton_ne s (chooseDistrictType cfgs total rv)
                (fun hcon => hst hcon.symm)
            rw [hz]
            have := hinv s dcs hsc hsmax
            omega

theorem randomDistrictTypes_bounds (cfgs : Cfgs) (rng : List ℚ) (n : Nat)
    (dtypes : List String)
    (hmm : ∀ t dc, cfgs t = some dc → 0 < dc.maxInCity → dc.minInCity ≤ dc.maxInCity)
    (h : randomDistrictTypes cfgs rng n = some dtypes) :
    ∀ t ∈ allDistricts, ∀ dc, cfgs t = some dc →
      dc.minInCity ≤ dtypes.count t ∧ (0 < dc.maxInCity → dtypes.count t ≤ dc.maxInCity) := by
  unfold randomDistrictTypes at h
  by_cases hn : n < (minFill cfgs).length
  · rw [if_pos hn] at h
    cases h
  · rw [if_neg hn] at h
    intro t ht dc htc
    have hminc : (minFill cfgs).count t = dc.minInCity := by
      rw [count_minFill_mem cfgs t ht, htc]
    constructor
    · have := randomFillLoop_le cfgs (probTotal cfgs) n rng (minFill cfgs) dtypes h t
      omega
    · intro hmax
      refine randomFillLoop_max cfgs (probTotal cfgs) n rng (minFill cfgs) dtypes h ?_
        t dc htc hmax
      intro s dcs hsc hsmax
      by_cases hs : s ∈ allDistricts
      · rw [count_minFill_mem cfgs s hs, hsc]
        exact hmm s dcs hsc hsmax
      · rw [count_minFill_notMem cfgs s hs]
        omega

theorem reassignPick_spec (cfgs : Cfgs) (total : ℚ) (countOf : String → Nat) :
    ∀ (rng : List ℚ) (t0 : String) (rng2 : List ℚ),
      reassignPick cfgs total countOf rng = some (t0, rng2) →
      t0 ≠ Docks ∧ ∃ dc0, cfgs t0 = some dc0 ∧
        (0 < dc0.maxInCity → countOf t0 < dc0.maxInCity) := by
  intro rng
  induction rng with
  | nil => intro t0 rng2 h; cases h
  | cons rv rest ih =>
    intro t0 rng2 h
    simp only [reassignPick] at h
    by_cases hd : chooseDistrictType cfgs total rv = Docks
    · rw [if_pos hd] at h
      exact ih t0 rng2 h
    · rw [if_neg hd] at h
      cases hc : cfgs (chooseDistrictType cfgs total rv) with
      | none =>
        rw [hc] at h
        replace h : reassignPick cfgs total countOf rest = some (t0, rng2) := h
        exact ih t0 rng2 h
      | some dc =>
        rw [hc] at h
        replace h : (if 0 < dc.maxInCity ∧
            dc.maxInCity ≤ countOf (chooseDistrictType cfgs total rv) then
              reassignPick cfgs total countOf rest
            else some (chooseDistrictType cfgs total rv, rest)) = some (t0, rng2) := h
        by_cases hskip : 0 < dc.maxInCity ∧
            dc.maxInCity ≤ countOf (chooseDistrictType cfgs total rv)
        · rw [if_pos hskip] at h
          exact ih t0 rng2 h
        · rw [if_neg hskip] at h
          injection h with h
          have he : chooseDistrictType cfgs total rv = t0 := congrArg Prod.fst h
          subst he
          refine ⟨hd, dc, hc, ?_⟩
          intro hmax
          by_contra hcon
          exact hskip ⟨hmax, by omega⟩

theorem repairLoop_bounds (cfgs : Cfgs) (total : ℚ) :
    ∀ (docks potential done : List DistrictRec) (rng : List ℚ) (res : List DistrictRec),
      repairLoop cfgs total docks potential done rng = some res →
      (∀ d ∈ docks, d.typ = Docks) →
      ∀ t dc, cfgs t = some dc →
        dc.minInCity ≤ countType (docks ++ potential ++ done) t →
        (0 < dc.maxInCity → countType (docks ++ potential ++ done) t ≤ dc.maxInCity) →
        dc.minInCity ≤ countType res t ∧
          (0 < dc.maxInCity → countType res t ≤ dc.maxInCity) := by
  intro docks
  induction docks with
  | nil =>
    intro potential done rng res h _ t dc _ hmin hmax
    simp only [repairLoop] at h
    injection h with h
    subst h
    rw [countType_append] at hmin hmax ⊢
    rw [countType_append, countType_nil] at hmin hmax
    constructor
    · omega
    · intro hm
      have := hmax hm
      omega
  | cons d docksRest ih =>
    intro potential done rng res h hdocks t dc htc hmin hmax
    have hd : d.typ = Docks := hdocks d (List.mem_cons_self d docksRest)
    have hdocksRest : ∀ x ∈ docksRest, x.typ = Docks :=
      fun x hx => hdocks x (List.mem_cons_of_mem d hx)
    cases potential with
    | cons last potRest =>
      replace h : repairLoop cfgs total docksRest potRest
          (done ++ [{ d with typ := last.typ }, { last with typ := Docks }]) rng =
          some res := h
      refine ih potRest _ rng res h hdocksRest t dc htc ?_ ?_
      all_goals
        simp only [countType_append, countType_cons, countType_nil, hd] at hmin hmax ⊢
      all_goals
        by_cases h1 : last.typ = t <;> by_cases h2 : Docks = t <;>
          simp only [h1, h2, if_pos, if_neg, if_true, if_false] <;>
          simp only [h1, h2, if_pos, if_neg, if_true, if_false] at hmin hmax <;>
          first
            | (intro hm; have := hmax hm; omega)
            | omega
    | nil =>
      replace h : (if docksMin cfgs < countType ((d :: docksRest) ++ done) Docks then
          match reassignPick cfgs total (countType ((d :: docksRest) ++ done)) rng with
          | none => none
          | some (t0, rng2) =>
            repairLoop cfgs total docksRest [] (done ++ [{ d with typ := t0 }]) rng2
          else none) = some res := h
      by_cases hguard : docksMin cfgs < countType ((d :: docksRest) ++ done) Docks
      · rw [if_pos hguard] at h
        cases hr : reassignPick cfgs total (countType ((d :: docksRest) ++ done)) rng with
        | none =>
          rw [hr] at h
          cases h
        | some pair =>
          obtain ⟨t0, rng2⟩ := pair
          rw [hr] at h
          replace h : repairLoop cfgs total docksRest []
              (done ++ [{ d with typ := t0 }]) rng2 = some res := h
          obtain ⟨ht0d, dc0, hc0, hlt⟩ :=
            reassignPick_spec cfgs total (countType ((d :: docksRest) ++ done)) rng t0 rng2 hr
          refine ih [] _ rng2 res h hdocksRest t dc htc ?_ ?_
          · -- the minimum is preserved
            simp only [countType_append, countType_cons, countType_nil, hd] at hmin ⊢
            by_cases h2 : Docks = t
            · -- t is the docks type: the guard spares one dock
              have hdm : docksMin cfgs = dc.minInCity := by
                unfold docksMin
                rw [← h2] at htc
                rw [htc]
              rw [countType_append, countType_cons, hd] at hguard
              have ht0 : ¬ t0 = t := fun hcon => ht0d (hcon.trans h2.symm)
              simp only [h2] at hguard hmin ⊢
              simp [ht0] at hguard hmin ⊢
              omega
            · have hle : (if t0 = t then 1 else 0) + countType done t ≥ countType done t := by
                split <;> omega
              simp only [h2, if_neg, if_false] at hmin
              by_cases ht0 : t0 = t <;> simp only [ht0, if_pos, if_neg, if_true, if_false] <;>
                omega
          · -- the maximum is preserved
            intro hm
            have hmax2 := hmax hm
            simp only [countType_append, countType_cons, countType_nil, hd] at hmax2 ⊢
            by_cases ht0 : t0 = t
            · -- t is the freshly chosen type: the pick guard bounds it
              subst ht0
              rw [hc0] at htc
              injection htc with htc
              subst htc
              have hcnt := hlt hm
              rw [countType_append, countType_cons, hd] at hcnt
              have hne : ¬ Docks = t0 := fun hcon => ht0d hcon.symm
              simp only [hne, if_neg, if_false, if_pos, if_true] at hcnt ⊢
              omega
            · by_cases h2 : Docks = t <;>
                simp only [ht0, h2, if_pos, if_neg, if_true, if_false] at hmax2 ⊢ <;>
                omega
      · rw [if_neg hguard] at h
        cases h

theorem countType_partition (m : Nat) (ds : List DistrictRec) (t : String) :
    countType (ds.filter fun d => d.typ = Docks ∧ d.dockSuitable < m) t +
    countType (ds.filter fun d => d.typ ≠ Docks ∧ m ≤ d.dockSuitable) t +
    countType (ds.filter fun d =>
      ¬(d.typ = Docks ∧ d.dockSuitable < m) ∧ ¬(d.typ ≠ Docks ∧ m ≤ d.dockSuitable)) t =
    countType ds t := by
  induction ds with
  | nil => rfl
  | cons d rest ih =>
    simp only [List.filter_cons]
    by_cases hP : d.typ = Docks ∧ d.dockSuitable < m
    · have hQ : ¬(d.typ ≠ Docks ∧ m ≤ d.dockSuitable) := fun hq => hq.1 hP.1
      have hR : ¬(¬(d.typ = Docks ∧ d.dockSuitable < m) ∧
          ¬(d.typ ≠ Docks ∧ m ≤ d.dockSuitable)) := fun hr => hr.1 hP
      rw [if_pos (decide_eq_true hP),
        if_neg (by simp only [decide_eq_true_eq]; exact hQ),
        if_neg (by simp only [decide_eq_true_eq]; exact hR),
        countType_cons, countType_cons]
      omega
    · by_cases hQ : d.typ ≠ Docks ∧ m ≤ d.dockSuitable
      · have hR : ¬(¬(d.typ = Docks ∧ d.dockSuitable < m) ∧
            ¬(d.typ ≠ Docks ∧ m ≤ d.dockSuitable)) := fun hr => hr.2 hQ
        rw [if_neg (by simp only [decide_eq_true_eq]; exact hP),
          if_pos (decide_eq_true hQ),
          if_neg (by simp only [decide_eq_true_eq]; exact hR),
          countType_cons, countType_cons]
        omega
      · have hR : (¬(d.typ = Docks ∧ d.dockSuitable < m) ∧
            ¬(d.typ ≠ Docks ∧ m ≤ d.dockSuitable)) := ⟨hP, hQ⟩
        rw [if_neg (by simp only [decide_eq_true_eq]; exact hP),
          if_neg (by simp only [decide_eq_true_eq]; exact hQ),
          if_pos (decide_eq_true hR),
          countType_cons, countType_cons]
        omega

theorem verifyDistricts_bounds (cfgs : Cfgs) (total : ℚ) (m : Nat)
    (ds : List DistrictRec) (rng : List ℚ) (res : List DistrictRec)
    (h : verifyDistricts cfgs total m ds rng = some res) :
    ∀ t dc, cfgs t = some dc →
      dc.minInCity ≤ countType ds t →
      (0 < dc.maxInCity → countType ds t ≤ dc.maxInCity) →
      dc.minInCity ≤ countType res t ∧
        (0 < dc.maxInCity → countType res t ≤ dc.maxInCity) := by
  unfold verifyDistricts at h
  intro t dc htc hmin hmax
  by_cases hnone : (ds.filter fun d => d.typ = Docks ∧ d.dockSuitable < m).length = 0
  · rw [if_pos hnone] at h
    injection h with h
    subst h
    exact ⟨hmin, hmax⟩
  · rw [if_neg hnone] at h
    have hdocks : ∀ d ∈ (ds.filter fun d =>
        d.typ = Docks ∧ d.dockSuitable < m).reverse, d.typ = Docks := by
      intro d hd
      rw [List.mem_reverse] at hd
      have h2 := (List.mem_filter.1 hd).2
      exact (of_decide_eq_true h2).1
    have hcnt : countType ((ds.filter fun d => d.typ = Docks ∧ d.dockSuitable < m).reverse ++
        (ds.filter fun d => d.typ ≠ Docks ∧ m ≤ d.dockSuitable).reverse ++
        (ds.filter fun d => ¬(d.typ = Docks ∧ d.dockSuitable < m) ∧
          ¬(d.typ ≠ Docks ∧ m ≤ d.dockSuitable))) t = countType ds t := by
      rw [countType_append, countType_append, countType_reverse, countType_reverse,
        ← countType_partition m ds t]
    refine repairLoop_bounds cfgs total _ _ _ rng res h hdocks t dc htc ?_ ?_
    · rw [hcnt]
      exact hmin
    · rw [hcnt]
      exact hmax

/-- C9: final district-type counts.  As stated the claim fails (see the
counterexample): the min-fill phase of `randomDistricts` ignores
`MaxInCity`, so a type configured with `MinInCity > MaxInCity > 0`
exceeds its maximum in a successful build.  Amended: provided every
configured type with positive `MaxInCity` has `MinInCity ≤ MaxInCity`,
then for every type of the fixed district enumeration, after the random
type assignment and the dock-repair pass (swap and reassignment) the
final count is at least `MinInCity` and, when `MaxInCity > 0`, at most
`MaxInCity`. -/
theorem districtTypeBounds (cfgs : Cfgs) (rngA rngB : List ℚ) (n minDockSize : Nat)
    (dtypes : List String) (ds res : List DistrictRec)
    (hmm : ∀ t dc, cfgs t = some dc → 0 < dc.maxInCity → dc.minInCity ≤ dc.maxInCity)
    (hA : randomDistrictTypes cfgs rngA n = some dtypes)
    (hzip : ∀ t, countType ds t = dtypes.count t)
    (hB : verifyDistricts cfgs (probTotal cfgs) minDockSize ds rngB = some res) :
    ∀ t ∈ allDistricts, ∀ dc, cfgs t = some dc →
      dc.minInCity ≤ countType res t ∧
        (0 < dc.maxInCity → countType res t ≤ dc.maxInCity) := by
  intro t ht dc htc
  have hAb := randomDistrictTypes_bounds cfgs rngA n dtypes hmm hA t ht dc htc
  refine verifyDistricts_bounds cfgs (probTotal cfgs) minDockSize ds rngB res hB t dc htc ?_ ?_
  · rw [hzip t]
    exact hAb.1
  · intro hm
    rw [hzip t]
    exact hAb.2 hm

/-- C9 counterexample: with `warehouse` configured `MinInCity = 2`,
`MaxInCity = 1` and two accepted sites, the build succeeds (type
assignment and dock repair both return without error) yet ends with two
warehouse districts, exceeding the positive maximum. -/
theorem districtTypeBounds_counterexample :
    randomDistrictTypes cfgCEx9 [] 2 = some ["warehouse", "warehouse"] ∧
    verifyDistricts cfgCEx9 (probTotal cfgCEx9) 0 dsCEx9 [] = some dsCEx9 ∧
    cfgCEx9 "warehouse" = some ⟨2, 1, 1⟩ ∧
    countType dsCEx9 "warehouse" = 2 := by
  refine ⟨by decide, by decide, by decide, by decide⟩

/-- C9 witness: a well-formed configuration (`fields`: min 1 ≤ max 2)
with one site; the amended bounds instantiate to `1 ≤ 1 ≤ 2`. -/
theorem districtTypeBounds_witness :
    randomDistrictTypes cfgW9 [] 1 = some ["fields"] ∧
    verifyDistricts cfgW9 (probTotal cfgW9) 0 dsW9 [] = some dsW9 ∧
    (1 ≤ countType dsW9 "fields" ∧ (0 < 2 → countType dsW9 "fields" ≤ 2)) := by
  refine ⟨by decide, by decide, ?_⟩
  have hmm : ∀ t dc, cfgW9 t = some dc → 0 < dc.maxInCity →
      dc.minInCity ≤ dc.maxInCity := by
    intro t dc h
    unfold cfgW9 at h
    by_cases ht : t = "fields"
    · rw [if_pos ht] at h
      injection h with h
      subst h
      intro _
      decide
    · rw [if_neg ht] at h
      cases h
  have hzip : ∀ t, countType dsW9 t = (["fields"] : List String).count t := by
    intro t
    by_cases h : "fields" = t
    · rw [← h]
      decide
    · simp [dsW9, countType_cons, countType_nil, h, List.count_cons, List.count_nil]
  exact districtTypeBounds cfgW9 [] [] 1 0 ["fields"] dsW9 dsW9 hmm (by decide) hzip
    (by decide) "fields" (by decide) ⟨1, 2, 1⟩ (by decide)
